import Mathlib

/-!
Verification of the per-tenant connection-routing layer of the Bee
multi-tenant backend (source: `src/lib/database-connection.ts` and
`src/lib/prisma-manager.ts`).

The embedding is shallow: the registry (a JS `Map`) becomes an association
list, timestamps become `Nat`, Prisma client handles become `Nat`
identifiers, and every network effect (connect attempts, master-catalog
queries, close calls) is driven by an explicit environment of oracles.
The WHATWG `URL` / `URLSearchParams` pair used by `addConnectionPoolParams`
is modelled at the level the function exercises: split a string into
scheme, opaque body, query pairs and fragment, replace query parameters
with `set` semantics (replace first occurrence, drop duplicates, else
append), and serialize back; percent-encoding normalisation is not
modelled since the function only inserts plain ASCII keys and values.
-/

namespace Bee

/-- Character-level model of the characters removed by `String.prototype.trim`
(restricted to the ASCII whitespace the connection strings can contain). -/
def jsTrimWs (c : Char) : Bool :=
  c = ' ' || c = '\t' || c = '\n' || c = '\r' || c = '\x0b' || c = '\x0c'

/-- Model of `String.prototype.trim` on the character list of a string. -/
def trimChars (l : List Char) : List Char :=
  ((l.dropWhile jsTrimWs).reverse.dropWhile jsTrimWs).reverse

/-- Model of the JS emptiness test `!s || s.trim() === ''`. -/
def isBlank (l : List Char) : Bool :=
  l.isEmpty || (trimChars l).isEmpty

/-- Split a character list at the first occurrence of `c`, dropping `c`. -/
def splitAtFirst (c : Char) : List Char → Option (List Char × List Char)
  | [] => none
  | x :: xs =>
    if x = c then some ([], xs)
    else
      match splitAtFirst c xs with
      | none => none
      | some (a, b) => some (x :: a, b)

/-- Accumulator loop for splitting on every occurrence of a separator. -/
def splitSepGo (c : Char) : List Char → List Char → List (List Char)
  | [], acc => [acc.reverse]
  | x :: xs, acc =>
    if x = c then acc.reverse :: splitSepGo c xs []
    else splitSepGo c xs (x :: acc)

/-- Split a character list on every occurrence of the separator `c`. -/
def splitSep (c : Char) (l : List Char) : List (List Char) :=
  splitSepGo c l []

/-- Join pieces with a single separator character between them. -/
def joinWith (c : Char) : List (List Char) → List Char
  | [] => []
  | [p] => p
  | p :: ps => p ++ c :: joinWith c ps

/-- Decimal digits of a natural number, most significant first; this is the
model of JS `Number.prototype.toString` on the pool limit. -/
def natToChars (n : Nat) : List Char :=
  if h : n < 10 then [Nat.digitChar n]
  else natToChars (n / 10) ++ [Nat.digitChar (n % 10)]
termination_by n
decreasing_by exact Nat.div_lt_self (by omega) (by omega)

/-- Characters allowed in a URL scheme after the leading letter. -/
def isSchemeChar (c : Char) : Bool :=
  c.isAlphanum || c = '+' || c = '-' || c = '.'

/-- Validity of a URL scheme: a leading ASCII letter followed by scheme
characters. -/
def validScheme : List Char → Bool
  | [] => false
  | c :: rest => c.isAlpha && rest.all isSchemeChar

/-- Parsed form of a connection string: scheme, the body between `:` and the
query, the query parameter list when a `?` is present, and the fragment
when a `#` is present. -/
structure UrlParts where
  scheme : List Char
  base : List Char
  query : Option (List (List Char × List Char))
  fragment : Option (List Char)
deriving DecidableEq, Repr

/-- Parse one `key=value` query piece; a piece without `=` is a bare key
with empty value. -/
def parseQueryPair (piece : List Char) : List Char × List Char :=
  match splitAtFirst '=' piece with
  | none => (piece, [])
  | some (k, v) => (k, v)

/-- Parse a raw query string into its parameter pairs. -/
def parseQuery (q : List Char) : List (List Char × List Char) :=
  if q = [] then [] else (splitSep '&' q).map parseQueryPair

/-- Split the part after the scheme at the first `#` into body and fragment. -/
def splitFrag (rest : List Char) : List Char × Option (List Char) :=
  match splitAtFirst '#' rest with
  | none => (rest, none)
  | some (a, b) => (a, some b)

/-- Split a pre-fragment body at the first `?` into base and parsed query. -/
def splitQuery (l : List Char) : List Char × Option (List (List Char × List Char)) :=
  match splitAtFirst '?' l with
  | none => (l, none)
  | some (a, b) => (a, some (parseQuery b))

/-- Parse a connection string in the shape `scheme:body[?query][#fragment]`;
returns `none` exactly where `new URL(...)` would throw in the model. -/
def parseUrl (s : List Char) : Option UrlParts :=
  match splitAtFirst ':' s with
  | none => none
  | some (scheme, rest) =>
    if validScheme scheme then
      some { scheme := scheme, base := (splitQuery (splitFrag rest).1).1,
             query := (splitQuery (splitFrag rest).1).2,
             fragment := (splitFrag rest).2 }
    else none

/-- Serialize one query pair as `key=value`. -/
def pairChars (p : List Char × List Char) : List Char :=
  p.1 ++ '=' :: p.2

/-- Serialize a query parameter list. -/
def joinPairs (ps : List (List Char × List Char)) : List Char :=
  joinWith '&' (ps.map pairChars)

/-- Serialize a parsed URL back to a character list. -/
def serializeUrl (u : UrlParts) : List Char :=
  u.scheme ++ ':' :: u.base
    ++ (match u.query with
        | none => []
        | some ps => '?' :: joinPairs ps)
    ++ (match u.fragment with
        | none => []
        | some f => '#' :: f)

/-- Remove every pair whose key is `k`. -/
def removeKey (k : List Char) : List (List Char × List Char) → List (List Char × List Char)
  | [] => []
  | p :: rest => if p.1 = k then removeKey k rest else p :: removeKey k rest

/-- WHATWG `URLSearchParams.set`: replace the first pair keyed `k` and drop
the other pairs keyed `k`; append when `k` is absent. -/
def setParam (k v : List Char) : List (List Char × List Char) → List (List Char × List Char)
  | [] => [(k, v)]
  | p :: rest =>
    if p.1 = k then (k, v) :: removeKey k rest
    else p :: setParam k v rest

/-- The four pool parameters written by `addConnectionPoolParams`, in source
order: connection limit, pool timeout, connect timeout, statement timeout. -/
def setPoolParams (connectionLimit : Nat) (ps : List (List Char × List Char)) :
    List (List Char × List Char) :=
  setParam "statement_timeout".data "30000".data
    (setParam "connect_timeout".data "30".data
      (setParam "pool_timeout".data "10".data
        (setParam "connection_limit".data (natToChars connectionLimit) ps)))

/-- Character-list body of `addConnectionPoolParams`: return the input
unchanged when it is blank or unparsable, otherwise overwrite the four pool
query parameters and serialize. -/
def addPoolParamsL (databaseUrl : List Char) (connectionLimit : Nat) : List Char :=
  if isBlank databaseUrl then databaseUrl
  else
    match parseUrl databaseUrl with
    | none => databaseUrl
    | some u =>
      serializeUrl { u with query := some (setPoolParams connectionLimit (u.query.getD [])) }

/-- Model of `addConnectionPoolParams` from `src/lib/database-connection.ts`. -/
def addConnectionPoolParams (databaseUrl : String) (connectionLimit : Nat) : String :=
  ⟨addPoolParamsL databaseUrl.data connectionLimit⟩

/-! Algebra of `setParam` with respect to key-filtered entries. -/

/-- Entries of a parameter list holding a given key, in order. -/
def entriesFor (k : List Char) : List (List Char × List Char) → List (List Char × List Char)
  | [] => []
  | p :: rest => if p.1 = k then p :: entriesFor k rest else entriesFor k rest

/-! Wellformedness of parsed URLs and the parse/serialize round trip. -/

/-- Constraints on a query pair that make `key=value` serialization
re-parse to the same pair. -/
def WfPair (p : List Char × List Char) : Prop :=
  '=' ∉ p.1 ∧ '&' ∉ p.1 ∧ '#' ∉ p.1 ∧ '&' ∉ p.2 ∧ '#' ∉ p.2

/-- Constraints on a parsed URL that make serialization re-parse to the
same record; every output of `parseUrl` satisfies them. -/
structure WfUrl (u : UrlParts) : Prop where
  scheme_ok : validScheme u.scheme = true
  base_hash : '#' ∉ u.base
  base_query : '?' ∉ u.base
  query_ok : ∀ ps, u.query = some ps → ∀ p ∈ ps, WfPair p

/-! Connection-manager state model (`src/lib/database-connection.ts`).

Prisma client handles are `Nat` identifiers, timestamps are `Nat`
milliseconds, and the `dbConnections` JS `Map` is an association list in
insertion order.  A ghost log `probed` records every client that passed
the `$connect` liveness race, and `closedClients` records every client on
which `$disconnect` was invoked (whether or not the close threw — close
failures are caught by the source, so they alter no state). -/

/-- Configuration constants from `CONNECTION_CONFIG`. -/
def MASTER_CONNECTION_LIMIT : Nat := 3
def TENANT_CONNECTION_LIMIT : Nat := 2
def CONNECTION_TIMEOUT : Nat := 30000
def IDLE_TIMEOUT : Nat := 60000
def MAX_RETRIES : Nat := 3
def RETRY_DELAY : Nat := 1000

/-- Metadata cached per connection, mirroring the `ConnectionInfo`
interface of the source. -/
structure ConnectionInfo where
  client : Nat
  lastUsed : Nat
  isConnected : Bool
  retryCount : Nat
deriving DecidableEq, Repr

/-- Lookup in the registry association list (JS `Map.get`). -/
def regGet (k : String) : List (String × ConnectionInfo) → Option ConnectionInfo
  | [] => none
  | p :: rest => if p.1 = k then some p.2 else regGet k rest

/-- Insert or replace in the registry association list (JS `Map.set`). -/
def regSet (k : String) (v : ConnectionInfo) :
    List (String × ConnectionInfo) → List (String × ConnectionInfo)
  | [] => [(k, v)]
  | p :: rest => if p.1 = k then (k, v) :: rest else p :: regSet k v rest

/-- Remove from the registry association list (JS `Map.delete`). -/
def regDelete (k : String) :
    List (String × ConnectionInfo) → List (String × ConnectionInfo)
  | [] => []
  | p :: rest => if p.1 = k then rest else p :: regDelete k rest

/-- Observable process state: the `dbConnections` registry plus ghost logs
for close calls, the master close call, and passed liveness probes. -/
structure DbState where
  registry : List (String × ConnectionInfo)
  closedClients : List Nat
  masterClosed : Bool
  probed : List Nat
deriving DecidableEq, Repr

/-- Initial state of a fresh process: empty registry, nothing closed,
nothing probed. -/
def initState : DbState :=
  { registry := [], closedClients := [], masterClosed := false, probed := [] }

/-- Underlying behaviour of one `client.$connect()` call: how long it takes
and whether it resolves or rejects. -/
structure ConnectAttempt where
  duration : Nat
  outcome : Except String Unit

/-- Oracle environment: current time, the behaviour of the k-th connect
attempt, the fresh client handle allocated on the k-th attempt, and which
clients throw from `$disconnect`. -/
structure Env where
  now : Nat
  attempts : Nat → ConnectAttempt
  freshClient : Nat → Nat
  closeThrows : Nat → Bool

/-- Race of `client.$connect()` against the fixed 30000 ms rejection timer
(`Promise.race` in the source): the underlying outcome wins when it
settles strictly before the timer, otherwise the timeout error wins. -/
def raceWithTimeout (a : ConnectAttempt) : Except String Unit :=
  if a.duration < CONNECTION_TIMEOUT then a.outcome
  else Except.error "Connection timeout"

/-- Model of `disconnectDatabase`: look up the entry; when present, call
`$disconnect` (logged) and delete the entry — the source deletes in both
the success branch and the catch branch, so a throwing close changes
nothing else. -/
def disconnectDatabase (closeThrows : Nat → Bool) (databaseId : String) (s : DbState) :
    DbState :=
  match regGet databaseId s.registry with
  | none => s
  | some info =>
    if closeThrows info.client then
      { s with closedClients := s.closedClients ++ [info.client],
               registry := regDelete databaseId s.registry }
    else
      { s with closedClients := s.closedClients ++ [info.client],
               registry := regDelete databaseId s.registry }

/-- Model of `cleanupStaleConnections`: collect the ids idle strictly
longer than `IDLE_TIMEOUT`, then disconnect each. -/
def cleanupStaleConnections (env : Env) (s : DbState) : DbState :=
  let staleConnections :=
    (s.registry.filter (fun p => IDLE_TIMEOUT < env.now - p.2.lastUsed)).map (·.1)
  staleConnections.foldl (fun st id => disconnectDatabase env.closeThrows id st) s

/-- Result of `getDatabaseConnection`: outcome, final state, the sleeps
performed between attempts, and how many connect attempts were made. -/
structure LoopOut where
  outcome : Except String Nat
  state : DbState
  delays : List Nat
  attemptsMade : Nat
deriving Repr

/-- One body iteration of the retry loop: `createOptimizedPrismaClient`
throws on a blank URL before any connect; otherwise the fresh client's
`$connect` is raced against the timeout. -/
def connAttempt (env : Env) (databaseUrl : String) (k : Nat) : Except String Nat :=
  if isBlank databaseUrl.data then Except.error "Database URL cannot be empty"
  else
    match raceWithTimeout (env.attempts k) with
    | Except.ok _ => Except.ok (env.freshClient k)
    | Except.error e => Except.error e

/-- Failure message after all retries, `lastError?.message` printing
`undefined` when no error was captured. -/
def connectFailMsg (databaseId : String) (lastError : Option String) : String :=
  "Failed to connect to database " ++ databaseId ++ " after " ++ toString MAX_RETRIES
    ++ " attempts: " ++ lastError.getD "undefined"

/-- The `while (retryCount < MAX_RETRIES)` loop of `getDatabaseConnection`,
with `fuel = MAX_RETRIES - tried` making recursion structural.  On success
the connection is cached with `isConnected := true` and `retryCount := 0`
and the client is recorded as probed; on failure the loop sleeps
`RETRY_DELAY * (tried + 1)` when retries remain. -/
def attemptLoopGo (env : Env) (databaseUrl databaseId : String) :
    Nat → Nat → Option String → DbState → LoopOut
  | 0, tried, lastError, s =>
    { outcome := Except.error (connectFailMsg databaseId lastError),
      state := s, delays := [], attemptsMade := tried }
  | fuel + 1, tried, _, s =>
    match connAttempt env databaseUrl tried with
    | Except.ok client =>
      { outcome := Except.ok client,
        state := { s with
          registry := regSet databaseId
            { client := client, lastUsed := env.now, isConnected := true, retryCount := 0 }
            s.registry,
          probed := s.probed ++ [client] },
        delays := [], attemptsMade := tried + 1 }
    | Except.error e =>
      let rest := attemptLoopGo env databaseUrl databaseId fuel (tried + 1) (some e) s
      { rest with
        delays := (if tried + 1 < MAX_RETRIES then [RETRY_DELAY * (tried + 1)] else [])
          ++ rest.delays }

/-- Model of `getDatabaseConnection(databaseUrl, databaseId)`: sweep stale
entries, return a cached connected entry after bumping `lastUsed`, evict a
cached disconnected entry, then run the retry loop. -/
def getDatabaseConnection (env : Env) (databaseUrl databaseId : String) (s : DbState) :
    LoopOut :=
  let s1 := cleanupStaleConnections env s
  match regGet databaseId s1.registry with
  | some info =>
    if info.isConnected then
      { outcome := Except.ok info.client,
        state := { s1 with
          registry := regSet databaseId { info with lastUsed := env.now } s1.registry },
        delays := [], attemptsMade := 0 }
    else
      attemptLoopGo env databaseUrl databaseId MAX_RETRIES 0 none
        (disconnectDatabase env.closeThrows databaseId s1)
  | none => attemptLoopGo env databaseUrl databaseId MAX_RETRIES 0 none s1

/-- Row of the master `database` table as selected by
`getDatabaseFromSession`. -/
structure SessionRecord where
  id : String
  name : String
  displayName : String
  isActive : Bool
deriving DecidableEq, Repr

/-- Result of `getDatabaseFromSession`: outcome pairing the tenant client
with the database metadata, final state, and the number of queries issued
against the master catalog. -/
structure SessionOut where
  outcome : Except String (Nat × SessionRecord)
  state : DbState
  masterQueries : Nat
deriving Repr

/-- Model of `getDatabaseFromSession(databaseId, databaseUrl)`: one
timeout-guarded master-catalog lookup (wrapped on failure), the not-found
and inactive checks, then `getDatabaseConnection` on the session-supplied
URL. -/
def getDatabaseFromSession (env : Env)
    (lookup : String → Except String (Option SessionRecord))
    (databaseId databaseUrl : String) (s : DbState) : SessionOut :=
  match lookup databaseId with
  | Except.error msg =>
    { outcome := Except.error ("Master database query failed: " ++ msg),
      state := s, masterQueries := 1 }
  | Except.ok none =>
    { outcome := Except.error "Database not found", state := s, masterQueries := 1 }
  | Except.ok (some record) =>
    if record.isActive then
      let out := getDatabaseConnection env databaseUrl databaseId s
      match out.outcome with
      | Except.ok client =>
        { outcome := Except.ok (client, record), state := out.state, masterQueries := 1 }
      | Except.error e =>
        { outcome := Except.error e, state := out.state, masterQueries := 1 }
    else
      { outcome := Except.error "Database is not active", state := s, masterQueries := 1 }

/-- Model of `disconnectAllDatabases`: close the master handle (its throw
is caught), then disconnect every currently cached id. -/
def disconnectAllDatabases (closeThrows : Nat → Bool) (masterThrows : Bool) (s : DbState) :
    DbState :=
  let s1 := if masterThrows then { s with masterClosed := true }
            else { s with masterClosed := true }
  (s1.registry.map (·.1)).foldl (fun st id => disconnectDatabase closeThrows id st) s1

/-- Model of `forceCleanupConnections`: snapshot the ids, clear the map
first, then look each id up in the (now empty) map and disconnect only
what is found. -/
def forceCleanupConnections (closeThrows : Nat → Bool) (s : DbState) : DbState :=
  let connectionIds := s.registry.map (·.1)
  let s1 := { s with registry := [] }
  connectionIds.foldl
    (fun st id =>
      match regGet id st.registry with
      | some info => { st with closedClients := st.closedClients ++ [info.client] }
      | none => st)
    s1

/-! Fan-out executor (`executeAcrossAllDatabases`).

The per-tenant body — `getDatabaseConnection` followed by the caller's
`queryFunction` — is abstracted as one oracle returning the tenant's
result or the message of the error it threw; the model captures the
batching, ordering and per-tenant error isolation of the collector. -/

/-- Row of the master `database` table as selected by
`getAllActiveDatabases`. -/
structure DatabaseRecord where
  id : String
  name : String
  displayName : String
  databaseUrl : String
  createdAt : Nat
deriving DecidableEq, Repr

/-- One result record of the fan-out: the tenant id with either its result
(`error := none`) or the caught error message (`result := none`). -/
structure FanRecord (T : Type) where
  databaseId : String
  result : Option T
  error : Option String
deriving DecidableEq, Repr

/-- Per-tenant body of the fan-out with its `try`/`catch`: a success gives
a result record, a thrown error gives an error record. -/
def runOne {T : Type} (run : DatabaseRecord → Except String T) (database : DatabaseRecord) :
    FanRecord T :=
  match run database with
  | Except.ok r => { databaseId := database.id, result := some r, error := none }
  | Except.error e => { databaseId := database.id, result := none, error := some e }

/-- Batched collection loop of `executeAcrossAllDatabases`: slices of
`batchSize = 3` are processed in order and their records appended in
batch order. -/
def execBatches {T : Type} (run : DatabaseRecord → Except String T) :
    List DatabaseRecord → List (FanRecord T)
  | [] => []
  | d :: ds =>
    ((d :: ds).take 3).map (runOne run) ++ execBatches run ((d :: ds).drop 3)
termination_by l => l.length
decreasing_by simp; omega

/-- Model of `executeAcrossAllDatabases(queryFunction)` applied to the
active-tenant list returned by `getAllActiveDatabases`. -/
def executeAcrossAllDatabases {T : Type} (run : DatabaseRecord → Except String T)
    (databases : List DatabaseRecord) : List (FanRecord T) :=
  execBatches run databases

/-! Master handle initialisation (`database-connection.ts` module scope). -/

/-- Lookup of a process environment variable. -/
def envLookup (env : List (String × String)) (k : String) : Option String :=
  match env with
  | [] => none
  | p :: rest => if p.1 = k then some p.2 else envLookup rest k

/-- JS `a || b` on an optional environment string: the empty string is
falsy and falls through. -/
def jsOr (a : Option String) (b : String) : String :=
  match a with
  | some s => if s = "" then b else s
  | none => b

/-- The `||` fallback chain of `getMasterDatabaseUrl`, in source order. -/
def chosenMasterUrl (env : List (String × String)) : String :=
  jsOr (envLookup env "MASTER_DATABASE_URL")
    (jsOr (envLookup env "DATABASE_URL")
      (jsOr (envLookup env "POSTGRES_URL") ""))

/-- Model of `getMasterDatabaseUrl`: first truthy of `MASTER_DATABASE_URL`,
`DATABASE_URL`, `POSTGRES_URL`, throwing a configuration error when the
choice is blank. -/
def getMasterDatabaseUrl (env : List (String × String)) : Except String String :=
  if isBlank (chosenMasterUrl env).data then
    Except.error "Master database URL is not configured"
  else Except.ok (chosenMasterUrl env)

/-- The master Prisma client as observable at module scope: the DSN it was
built with and whether it is the fallback dummy client. -/
structure MasterDb where
  url : String
  isDummy : Bool
deriving DecidableEq, Repr

/-- Model of the module-scope `try { masterDb = new PrismaClient(...) }
catch { masterDb = dummy }` initialisation: the configuration error is
caught and a dummy client pointing at `postgresql://localhost:5432/dummy`
is produced instead of failing. -/
def initMasterDb (env : List (String × String)) : MasterDb :=
  match getMasterDatabaseUrl env with
  | Except.ok masterDbUrl =>
    { url := addConnectionPoolParams masterDbUrl MASTER_CONNECTION_LIMIT, isDummy := false }
  | Except.error _ =>
    { url := "postgresql://localhost:5432/dummy", isDummy := true }

/-! Legacy manager (`src/lib/prisma-manager.ts`).

`getPrismaClientByDatabaseId` caches bare clients keyed by database id; it
never calls `$connect`, so its `probed` log can never grow. -/

/-- State of the legacy `tenantClients` map with the same ghost probe log. -/
structure PmState where
  tenantClients : List (String × Nat)
  probed : List Nat
deriving DecidableEq, Repr

/-- Lookup in the legacy client map. -/
def pmGet (k : String) : List (String × Nat) → Option Nat
  | [] => none
  | p :: rest => if p.1 = k then some p.2 else pmGet k rest

/-- Insert or replace in the legacy client map. -/
def pmSet (k : String) (v : Nat) : List (String × Nat) → List (String × Nat)
  | [] => [(k, v)]
  | p :: rest => if p.1 = k then (k, v) :: rest else p :: pmSet k v rest

/-- Model of `getDatabaseInfo`: master lookup whose driver errors are
caught and turned into `null`, like a missing row. -/
def getDatabaseInfo (masterLookup : String → Except String (Option (String × String)))
    (databaseId : String) : Option (String × String) :=
  match masterLookup databaseId with
  | Except.error _ => none
  | Except.ok r => r

/-- Model of `getPrismaClientByDatabaseId`: return the cached client, else
resolve the URL from the master catalog, build a client and cache it — the
client is returned without any `$connect` liveness probe, and an
unresolvable id yields `null` rather than an error. -/
def getPrismaClientByDatabaseId
    (masterLookup : String → Except String (Option (String × String)))
    (freshClient : Nat) (databaseId : String) (s : PmState) : Option Nat × PmState :=
  match pmGet databaseId s.tenantClients with
  | some client => (some client, s)
  | none =>
    match getDatabaseInfo masterLookup databaseId with
    | none => (none, s)
    | some _ =>
      (some freshClient,
        { s with tenantClients := pmSet databaseId freshClient s.tenantClients })

/-! Registry invariant: every cached entry is marked connected and its
client has passed the liveness probe. -/

/-- Invariant maintained by every operation on the registry. -/
def RegInv (s : DbState) : Prop :=
  ∀ p ∈ s.registry, p.2.isConnected = true ∧ p.2.client ∈ s.probed

/-- States reachable from a fresh process by the exported operations of
the connection layer. -/
inductive Reachable : DbState → Prop where
  | init : Reachable initState
  | conn (env : Env) (databaseUrl databaseId : String) {s : DbState} :
      Reachable s → Reachable (getDatabaseConnection env databaseUrl databaseId s).state
  | session (env : Env) (lookup : String → Except String (Option SessionRecord))
      (databaseId databaseUrl : String) {s : DbState} :
      Reachable s →
      Reachable (getDatabaseFromSession env lookup databaseId databaseUrl s).state
  | disc (closeThrows : Nat → Bool) (databaseId : String) {s : DbState} :
      Reachable s → Reachable (disconnectDatabase closeThrows databaseId s)
  | sweep (env : Env) {s : DbState} :
      Reachable s → Reachable (cleanupStaleConnections env s)
  | drainAll (closeThrows : Nat → Bool) (masterThrows : Bool) {s : DbState} :
      Reachable s → Reachable (disconnectAllDatabases closeThrows masterThrows s)
  | force (closeThrows : Nat → Bool) {s : DbState} :
      Reachable s → Reachable (forceCleanupConnections closeThrows s)

/-! Environment-chain lemmas for the master DSN. -/

/-- A variable that is unset or set to the empty string, i.e. falsy in the
source's `||` chain. -/
def unsetOrEmpty (env : List (String × String)) (k : String) : Prop :=
  envLookup env k = none ∨ envLookup env k = some ""

/-! Concrete fixtures used by witnesses and counterexamples. -/

/-- Environment in which every connect attempt rejects immediately. -/
def envFail : Env :=
  { now := 100000,
    attempts := fun _ => { duration := 0, outcome := Except.error "boom" },
    freshClient := fun k => 100 + k,
    closeThrows := fun _ => false }

/-- Environment in which every connect attempt resolves immediately. -/
def envOK : Env :=
  { now := 100000,
    attempts := fun _ => { duration := 0, outcome := Except.ok () },
    freshClient := fun k => 100 + k,
    closeThrows := fun _ => false }

/-- Registry holding one healthy entry last used at time 0, hence stale at
`envFail.now`. -/
def staleState : DbState :=
  { registry := [("A", { client := 7, lastUsed := 0, isConnected := true, retryCount := 0 })],
    closedClients := [], masterClosed := false, probed := [7] }

/-- Master catalog with no rows. -/
def lookupNone : String → Except String (Option SessionRecord) :=
  fun _ => Except.ok none

/-- Deactivated catalog row for tenant B. -/
def recInactive : SessionRecord :=
  { id := "B", name := "b", displayName := "B", isActive := false }

/-- Master catalog where tenant B exists but is deactivated. -/
def lookupInactive : String → Except String (Option SessionRecord) :=
  fun databaseId => if databaseId = "B" then Except.ok (some recInactive) else Except.ok none

/-- Active catalog row for tenant B. -/
def recActive : SessionRecord :=
  { id := "B", name := "b", displayName := "B", isActive := true }

/-- Master catalog where tenant B exists and is active. -/
def lookupActive : String → Except String (Option SessionRecord) :=
  fun databaseId => if databaseId = "B" then Except.ok (some recActive) else Except.ok none

/-- Legacy-manager master catalog resolving tenant T. -/
def pmLookupT : String → Except String (Option (String × String)) :=
  fun databaseId =>
    if databaseId = "T" then Except.ok (some ("Tenant", "postgresql://t/db"))
    else Except.ok none

/-- Fresh legacy-manager state. -/
def pmInit : PmState := { tenantClients := [], probed := [] }

/-- Two active tenants for the fan-out witness. -/
def dbsW : List DatabaseRecord :=
  [{ id := "A", name := "a", displayName := "A", databaseUrl := "postgresql://a",
     createdAt := 0 },
   { id := "K", name := "k", displayName := "K", databaseUrl := "postgresql://k",
     createdAt := 0 }]

/-- Fan-out operation that throws for tenant K only. -/
def runW : DatabaseRecord → Except String Nat :=
  fun database => if database.id = "K" then Except.error "boom" else Except.ok 5

/-! Lemmas about the splitting primitives. -/

theorem splitAtFirst_eq_none {c : Char} {l : List Char} (h : splitAtFirst c l = none) :
    c ∉ l := by
  induction l with
  | nil => simp
  | cons x xs ih =>
    rw [splitAtFirst] at h
    by_cases hx : x = c
    · simp [hx] at h
    · simp only [if_neg hx] at h
      cases hsp : splitAtFirst c xs with
      | none =>
        intro hmem
        rcases List.mem_cons.mp hmem with h1 | h1
        · exact hx h1.symm
        · exact ih hsp h1
      | some p => rw [hsp] at h; cases h

theorem splitAtFirst_eq_some {c : Char} {l a b : List Char}
    (h : splitAtFirst c l = some (a, b)) : l = a ++ c :: b ∧ c ∉ a := by
  induction l generalizing a b with
  | nil => cases h
  | cons x xs ih =>
    rw [splitAtFirst] at h
    by_cases hx : x = c
    · simp only [if_pos hx] at h
      cases h
      simp [hx]
    · simp only [if_neg hx] at h
      cases hsp : splitAtFirst c xs with
      | none => rw [hsp] at h; cases h
      | some p =>
        rw [hsp] at h
        cases h
        obtain ⟨h1, h2⟩ := ih hsp
        constructor
        · simp [h1]
        · intro hmem
          rcases List.mem_cons.mp hmem with h3 | h3
          · exact hx h3.symm
          · exact h2 h3

theorem splitAtFirst_append {c : Char} {a : List Char} (b : List Char) (ha : c ∉ a) :
    splitAtFirst c (a ++ c :: b) = some (a, b) := by
  induction a with
  | nil => simp [splitAtFirst]
  | cons x xs ih =>
    have hx : x ≠ c := fun h => ha (h ▸ List.mem_cons_self x xs)
    have hxs : c ∉ xs := fun h => ha (List.mem_cons_of_mem x h)
    rw [List.cons_append, splitAtFirst, if_neg hx, ih hxs]

theorem splitAtFirst_of_not_mem {c : Char} {l : List Char} (h : c ∉ l) :
    splitAtFirst c l = none := by
  cases hsp : splitAtFirst c l with
  | none => rfl
  | some p =>
    obtain ⟨h1, _⟩ := splitAtFirst_eq_some
      (show splitAtFirst c l = some (p.1, p.2) by rw [hsp])
    exact absurd (h1 ▸ List.mem_append_right p.1 (List.mem_cons_self c p.2)) h

theorem splitSepGo_skip {c : Char} {p : List Char} (hp : c ∉ p) :
    ∀ (rest acc : List Char), splitSepGo c (p ++ rest) acc = splitSepGo c rest (p.reverse ++ acc) := by
  induction p with
  | nil => intro rest acc; simp
  | cons x xs ih =>
    intro rest acc
    have hx : x ≠ c := fun h => hp (h ▸ List.mem_cons_self x xs)
    have hxs : c ∉ xs := fun h => hp (List.mem_cons_of_mem x h)
    rw [List.cons_append, splitSepGo, if_neg hx, ih hxs]
    simp

theorem splitSep_joinWith {c : Char} :
    ∀ (ps : List (List Char)), ps ≠ [] → (∀ p ∈ ps, c ∉ p) →
    splitSep c (joinWith c ps) = ps := by
  intro ps
  induction ps with
  | nil => intro h; exact absurd rfl h
  | cons p rest ih =>
    intro _ hmem
    have hp : c ∉ p := hmem p (List.mem_cons_self p rest)
    cases rest with
    | nil =>
      show splitSepGo c (joinWith c [p]) [] = [p]
      have : joinWith c [p] = p ++ [] := by simp [joinWith]
      rw [this, splitSepGo_skip hp]
      simp [splitSepGo]
    | cons q qs =>
      have hjoin : joinWith c (p :: q :: qs) = p ++ c :: joinWith c (q :: qs) := rfl
      show splitSepGo c (joinWith c (p :: q :: qs)) [] = p :: q :: qs
      rw [hjoin, splitSepGo_skip hp, splitSepGo]
      have hrest := ih (by intro h; cases h) (fun x hx => hmem x (List.mem_cons_of_mem p hx))
      rw [splitSep] at hrest
      simp [hrest]

theorem splitSepGo_mem {c : Char} :
    ∀ (l acc p : List Char), p ∈ splitSepGo c l acc → ∀ x ∈ p, x ∈ l ∨ x ∈ acc := by
  intro l
  induction l with
  | nil =>
    intro acc p hp x hx
    simp [splitSepGo] at hp
    subst hp
    exact Or.inr (List.mem_reverse.mp hx)
  | cons y ys ih =>
    intro acc p hp x hx
    rw [splitSepGo] at hp
    by_cases hy : y = c
    · rw [if_pos hy] at hp
      rcases List.mem_cons.mp hp with h1 | h1
      · subst h1; exact Or.inr (List.mem_reverse.mp hx)
      · rcases ih [] p h1 x hx with h2 | h2
        · exact Or.inl (List.mem_cons_of_mem y h2)
        · cases h2
    · rw [if_neg hy] at hp
      rcases ih (y :: acc) p hp x hx with h2 | h2
      · exact Or.inl (List.mem_cons_of_mem y h2)
      · rcases List.mem_cons.mp h2 with h3 | h3
        · exact Or.inl (h3 ▸ List.mem_cons_self y ys)
        · exact Or.inr h3

theorem splitSepGo_no_sep {c : Char} :
    ∀ (l acc p : List Char), c ∉ acc → p ∈ splitSepGo c l acc → c ∉ p := by
  intro l
  induction l with
  | nil =>
    intro acc p hacc hp
    simp [splitSepGo] at hp
    subst hp
    simpa using hacc
  | cons y ys ih =>
    intro acc p hacc hp
    rw [splitSepGo] at hp
    by_cases hy : y = c
    · rw [if_pos hy] at hp
      rcases List.mem_cons.mp hp with h1 | h1
      · subst h1; simpa using hacc
      · exact ih [] p (by simp) h1
    · rw [if_neg hy] at hp
      refine ih (y :: acc) p ?_ hp
      intro hmem
      rcases List.mem_cons.mp hmem with h1 | h1
      · exact hy h1.symm
      · exact hacc h1

theorem splitSep_no_sep {c : Char} {l p : List Char} (hp : p ∈ splitSep c l) : c ∉ p :=
  splitSepGo_no_sep l [] p (by simp) hp

theorem splitSep_mem {c : Char} {l p : List Char} (hp : p ∈ splitSep c l) :
    ∀ x ∈ p, x ∈ l := by
  intro x hx
  rcases splitSepGo_mem l [] p hp x hx with h | h
  · exact h
  · cases h

/-! Character facts and decimal digits. -/

theorem alpha_not_trimWs {c : Char} (h : c.isAlpha = true) : jsTrimWs c = false := by
  cases hw : jsTrimWs c with
  | false => rfl
  | true =>
    exfalso
    rw [jsTrimWs] at hw
    simp only [Bool.or_eq_true, decide_eq_true_eq] at hw
    rcases hw with ((((h1 | h1) | h1) | h1) | h1) | h1 <;> subst h1 <;>
      exact absurd h (by decide)

theorem natToChars_all_digit : ∀ n : Nat, ∀ c ∈ natToChars n, c.isDigit = true := by
  intro n
  induction n using Nat.strong_induction_on with
  | _ n ih =>
    intro c hc
    rw [natToChars] at hc
    by_cases h : n < 10
    · rw [dif_pos h] at hc
      simp only [List.mem_singleton] at hc
      subst hc
      interval_cases n <;> decide
    · rw [dif_neg h] at hc
      rcases List.mem_append.mp hc with h1 | h1
      · exact ih (n / 10) (Nat.div_lt_self (by omega) (by omega)) c h1
      · simp only [List.mem_singleton] at h1
        subst h1
        have hm : n % 10 < 10 := Nat.mod_lt n (by omega)
        set m := n % 10 with hmdef
        interval_cases m <;> decide

theorem digit_ne {c : Char} (h : c.isDigit = true) :
    c ≠ '&' ∧ c ≠ '=' ∧ c ≠ '#' ∧ c ≠ '?' := by
  refine ⟨?_, ?_, ?_, ?_⟩ <;> intro he <;> subst he <;> exact absurd h (by decide)

theorem entriesFor_removeKey_self (k : List Char) :
    ∀ ps, entriesFor k (removeKey k ps) = [] := by
  intro ps
  induction ps with
  | nil => rfl
  | cons p rest ih =>
    rw [removeKey]
    by_cases h : p.1 = k
    · rw [if_pos h]; exact ih
    · rw [if_neg h, entriesFor, if_neg h]; exact ih

theorem removeKey_of_entriesFor_nil (k : List Char) :
    ∀ ps, entriesFor k ps = [] → removeKey k ps = ps := by
  intro ps
  induction ps with
  | nil => intro _; rfl
  | cons p rest ih =>
    intro h
    rw [entriesFor] at h
    by_cases hp : p.1 = k
    · rw [if_pos hp] at h; cases h
    · rw [if_neg hp] at h
      rw [removeKey, if_neg hp, ih h]

theorem entriesFor_setParam_self (k v : List Char) :
    ∀ ps, entriesFor k (setParam k v ps) = [(k, v)] := by
  intro ps
  induction ps with
  | nil => simp [setParam, entriesFor]
  | cons p rest ih =>
    rw [setParam]
    by_cases h : p.1 = k
    · rw [if_pos h, entriesFor, if_pos rfl, entriesFor_removeKey_self]
    · rw [if_neg h, entriesFor, if_neg h]; exact ih

theorem entriesFor_removeKey_other {k k' : List Char} (hk : k' ≠ k) :
    ∀ ps, entriesFor k' (removeKey k ps) = entriesFor k' ps := by
  intro ps
  induction ps with
  | nil => rfl
  | cons p rest ih =>
    rw [removeKey]
    by_cases h : p.1 = k
    · rw [if_pos h, entriesFor, if_neg (h ▸ fun he => hk he.symm), ih]
    · rw [if_neg h, entriesFor, entriesFor]
      by_cases h2 : p.1 = k'
      · rw [if_pos h2, if_pos h2, ih]
      · rw [if_neg h2, if_neg h2, ih]

theorem entriesFor_setParam_other {k k' : List Char} (hk : k' ≠ k) (v : List Char) :
    ∀ ps, entriesFor k' (setParam k v ps) = entriesFor k' ps := by
  intro ps
  induction ps with
  | nil =>
    show entriesFor k' [(k, v)] = entriesFor k' []
    rw [entriesFor, entriesFor, if_neg (fun he => hk he.symm), entriesFor]
  | cons p rest ih =>
    rw [setParam]
    by_cases h : p.1 = k
    · rw [if_pos h]
      have hpk : ¬ (p.1 = k') := by rw [h]; exact fun he => hk he.symm
      calc entriesFor k' ((k, v) :: removeKey k rest)
          = entriesFor k' (removeKey k rest) := by
            rw [entriesFor, if_neg (fun he => hk he.symm)]
        _ = entriesFor k' rest := entriesFor_removeKey_other hk rest
        _ = entriesFor k' (p :: rest) := by rw [entriesFor, if_neg hpk]
    · rw [if_neg h]
      by_cases h2 : p.1 = k'
      · rw [entriesFor, if_pos h2, ih, entriesFor, if_pos h2]
      · rw [entriesFor, if_neg h2, ih, entriesFor, if_neg h2]

theorem setParam_of_entriesFor (k v : List Char) :
    ∀ ps, entriesFor k ps = [(k, v)] → setParam k v ps = ps := by
  intro ps
  induction ps with
  | nil => intro h; cases h
  | cons p rest ih =>
    intro h
    rw [entriesFor] at h
    by_cases hp : p.1 = k
    · rw [if_pos hp] at h
      injection h with h1 h2
      rw [setParam, if_pos hp, removeKey_of_entriesFor_nil k rest h2, h1]
    · rw [if_neg hp] at h
      rw [setParam, if_neg hp, ih h]

theorem validScheme_no {s : List Char} (h : validScheme s = true) {c : Char}
    (h1 : c.isAlpha = false) (h2 : isSchemeChar c = false) : c ∉ s := by
  cases s with
  | nil => simp
  | cons x xs =>
    rw [validScheme, Bool.and_eq_true, List.all_eq_true] at h
    intro hmem
    rcases List.mem_cons.mp hmem with h3 | h3
    · rw [h3] at h1; rw [h1] at h; cases h.1
    · have := h.2 c h3; rw [h2] at this; cases this

theorem parseQueryPair_wf {piece : List Char} (hamp : '&' ∉ piece) (hhash : '#' ∉ piece) :
    WfPair (parseQueryPair piece) := by
  rw [parseQueryPair]
  cases hsp : splitAtFirst '=' piece with
  | none =>
    have heq := splitAtFirst_eq_none hsp
    exact ⟨heq, hamp, hhash, by simp, by simp⟩
  | some pr =>
    obtain ⟨hpc, hknomem⟩ := splitAtFirst_eq_some
      (show splitAtFirst '=' piece = some (pr.1, pr.2) by rw [hsp])
    have hsub1 : ∀ x, x ∈ pr.1 → x ∈ piece := fun x hx => hpc ▸ List.mem_append_left _ hx
    have hsub2 : ∀ x, x ∈ pr.2 → x ∈ piece := fun x hx =>
      hpc ▸ List.mem_append_right _ (List.mem_cons_of_mem _ hx)
    exact ⟨hknomem, fun hx => hamp (hsub1 _ hx), fun hx => hhash (hsub1 _ hx),
      fun hx => hamp (hsub2 _ hx), fun hx => hhash (hsub2 _ hx)⟩

theorem parseQuery_wf {q : List Char} (hhash : '#' ∉ q) :
    ∀ p ∈ parseQuery q, WfPair p := by
  intro p hp
  rw [parseQuery] at hp
  by_cases hq : q = []
  · rw [if_pos hq] at hp; cases hp
  · rw [if_neg hq] at hp
    obtain ⟨piece, hpiece, hpp⟩ := List.mem_map.mp hp
    have hamp : '&' ∉ piece := splitSep_no_sep hpiece
    have hh : '#' ∉ piece := fun hx => hhash (splitSep_mem hpiece _ hx)
    exact hpp ▸ parseQueryPair_wf hamp hh

theorem splitFrag_no_hash (rest : List Char) : '#' ∉ (splitFrag rest).1 := by
  rw [splitFrag]
  cases hsp : splitAtFirst '#' rest with
  | none => exact splitAtFirst_eq_none hsp
  | some pr =>
    exact (splitAtFirst_eq_some
      (show splitAtFirst '#' rest = some (pr.1, pr.2) by rw [hsp])).2

theorem splitQuery_no_q (l : List Char) : '?' ∉ (splitQuery l).1 := by
  rw [splitQuery]
  cases hsp : splitAtFirst '?' l with
  | none => exact splitAtFirst_eq_none hsp
  | some pr =>
    exact (splitAtFirst_eq_some
      (show splitAtFirst '?' l = some (pr.1, pr.2) by rw [hsp])).2

theorem splitQuery_mem {l : List Char} {x : Char} (hx : x ∈ (splitQuery l).1) : x ∈ l := by
  rw [splitQuery] at hx
  cases hsp : splitAtFirst '?' l with
  | none => rw [hsp] at hx; exact hx
  | some pr =>
    rw [hsp] at hx
    exact (splitAtFirst_eq_some
        (show splitAtFirst '?' l = some (pr.1, pr.2) by rw [hsp])).1 ▸
      List.mem_append_left _ hx

theorem splitFrag_mem {l : List Char} {x : Char} (hx : x ∈ (splitFrag l).1) : x ∈ l := by
  rw [splitFrag] at hx
  cases hsp : splitAtFirst '#' l with
  | none => rw [hsp] at hx; exact hx
  | some pr =>
    rw [hsp] at hx
    exact (splitAtFirst_eq_some
        (show splitAtFirst '#' l = some (pr.1, pr.2) by rw [hsp])).1 ▸
      List.mem_append_left _ hx

theorem splitQuery_query_wf {l : List Char} (hhash : '#' ∉ l) :
    ∀ ps, (splitQuery l).2 = some ps → ∀ p ∈ ps, WfPair p := by
  intro ps hps
  rw [splitQuery] at hps
  cases hsp : splitAtFirst '?' l with
  | none => rw [hsp] at hps; cases hps
  | some pr =>
    rw [hsp] at hps
    injection hps with hps
    have hsub : ∀ x, x ∈ pr.2 → x ∈ l := fun x hx =>
      (splitAtFirst_eq_some
          (show splitAtFirst '?' l = some (pr.1, pr.2) by rw [hsp])).1 ▸
        List.mem_append_right _ (List.mem_cons_of_mem _ hx)
    exact hps ▸ parseQuery_wf (fun hx => hhash (hsub _ hx))

theorem parseUrl_wf {s : List Char} {u : UrlParts} (h : parseUrl s = some u) : WfUrl u := by
  rw [parseUrl] at h
  cases hsp : splitAtFirst ':' s with
  | none => rw [hsp] at h; cases h
  | some pr =>
    obtain ⟨sch, rest⟩ := pr
    rw [hsp] at h
    dsimp only at h
    by_cases hv : validScheme sch = true
    · rw [if_pos hv] at h
      injection h with h
      subst h
      refine ⟨hv, ?_, ?_, ?_⟩
      · exact fun hx => splitFrag_no_hash rest (splitQuery_mem hx)
      · exact splitQuery_no_q _
      · exact splitQuery_query_wf (splitFrag_no_hash rest)
    · rw [if_neg hv] at h; cases h

theorem mem_joinWith {c x : Char} :
    ∀ {l : List (List Char)}, x ∈ joinWith c l → x = c ∨ ∃ p ∈ l, x ∈ p := by
  intro l
  induction l with
  | nil => intro h; cases h
  | cons p rest ih =>
    intro h
    cases rest with
    | nil =>
      refine Or.inr ⟨p, List.mem_cons_self p [], ?_⟩
      simpa [joinWith] using h
    | cons q qs =>
      have hj : joinWith c (p :: q :: qs) = p ++ c :: joinWith c (q :: qs) := rfl
      rw [hj] at h
      rcases List.mem_append.mp h with h1 | h1
      · exact Or.inr ⟨p, List.mem_cons_self p _, h1⟩
      · rcases List.mem_cons.mp h1 with h2 | h2
        · exact Or.inl h2
        · rcases ih h2 with h3 | ⟨r, hr, hxr⟩
          · exact Or.inl h3
          · exact Or.inr ⟨r, List.mem_cons_of_mem p hr, hxr⟩

theorem mem_pairChars {x : Char} {p : List Char × List Char} (h : x ∈ pairChars p) :
    x ∈ p.1 ∨ x = '=' ∨ x ∈ p.2 := by
  rw [pairChars] at h
  rcases List.mem_append.mp h with h1 | h1
  · exact Or.inl h1
  · rcases List.mem_cons.mp h1 with h2 | h2
    · exact Or.inr (Or.inl h2)
    · exact Or.inr (Or.inr h2)

theorem joinPairs_no_char {c : Char} {ps : List (List Char × List Char)}
    (hc1 : c ≠ '=') (hc2 : c ≠ '&')
    (hps : ∀ p ∈ ps, c ∉ p.1 ∧ c ∉ p.2) : c ∉ joinPairs ps := by
  intro hmem
  rw [joinPairs] at hmem
  rcases mem_joinWith hmem with h1 | ⟨piece, hpiece, hcp⟩
  · exact hc2 h1
  · obtain ⟨p, hp, hpc⟩ := List.mem_map.mp hpiece
    subst hpc
    rcases mem_pairChars hcp with h2 | h2 | h2
    · exact (hps p hp).1 h2
    · exact hc1 h2
    · exact (hps p hp).2 h2

theorem joinPairs_ne_nil {p : List Char × List Char} {rest : List (List Char × List Char)} :
    joinPairs (p :: rest) ≠ [] := by
  rw [joinPairs, List.map_cons]
  cases rest with
  | nil =>
    show joinWith '&' [pairChars p] ≠ []
    rw [joinWith, pairChars]
    simp
  | cons q qs =>
    show joinWith '&' (pairChars p :: pairChars q :: qs.map pairChars) ≠ []
    show pairChars p ++ '&' :: joinWith '&' (pairChars q :: qs.map pairChars) ≠ []
    simp

theorem map_parseQueryPair_pairChars :
    ∀ (ps : List (List Char × List Char)), (∀ p ∈ ps, '=' ∉ p.1) →
    (ps.map pairChars).map parseQueryPair = ps := by
  intro ps
  induction ps with
  | nil => intro _; rfl
  | cons p rest ih =>
    intro h
    rw [List.map_cons, List.map_cons, ih (fun q hq => h q (List.mem_cons_of_mem p hq))]
    have hpp : parseQueryPair (pairChars p) = p := by
      rw [pairChars, parseQueryPair, splitAtFirst_append p.2 (h p (List.mem_cons_self p rest))]
    rw [hpp]

theorem parseQuery_joinPairs {ps : List (List Char × List Char)}
    (hps : ∀ p ∈ ps, WfPair p) : parseQuery (joinPairs ps) = ps := by
  cases ps with
  | nil => rfl
  | cons p rest =>
    rw [parseQuery, if_neg joinPairs_ne_nil, joinPairs]
    have hpieces : ∀ piece ∈ (p :: rest).map pairChars, '&' ∉ piece := by
      intro piece hpiece hmem
      obtain ⟨q, hq, hqc⟩ := List.mem_map.mp hpiece
      subst hqc
      rcases mem_pairChars hmem with h1 | h1 | h1
      · exact (hps q hq).2.1 h1
      · cases h1
      · exact (hps q hq).2.2.2.1 h1
    rw [splitSep_joinWith ((p :: rest).map pairChars) (by simp) hpieces]
    exact map_parseQueryPair_pairChars _ (fun q hq => (hps q hq).1)

theorem splitFrag_of_no_hash {l : List Char} (h : '#' ∉ l) : splitFrag l = (l, none) := by
  rw [splitFrag, splitAtFirst_of_not_mem h]

theorem splitFrag_append {a : List Char} (b : List Char) (h : '#' ∉ a) :
    splitFrag (a ++ '#' :: b) = (a, some b) := by
  rw [splitFrag, splitAtFirst_append b h]

theorem splitQuery_of_no_q {l : List Char} (h : '?' ∉ l) : splitQuery l = (l, none) := by
  rw [splitQuery, splitAtFirst_of_not_mem h]

theorem splitQuery_append {a : List Char} (b : List Char) (h : '?' ∉ a) :
    splitQuery (a ++ '?' :: b) = (a, some (parseQuery b)) := by
  rw [splitQuery, splitAtFirst_append b h]

theorem parseUrl_build {scheme rest : List Char} (hsc : ':' ∉ scheme)
    (hs : validScheme scheme = true) :
    parseUrl (scheme ++ ':' :: rest) =
      some { scheme := scheme, base := (splitQuery (splitFrag rest).1).1,
             query := (splitQuery (splitFrag rest).1).2,
             fragment := (splitFrag rest).2 } := by
  rw [parseUrl, splitAtFirst_append rest hsc]
  dsimp only
  rw [if_pos hs]

theorem parseUrl_serializeUrl {u : UrlParts} (h : WfUrl u) :
    parseUrl (serializeUrl u) = some u := by
  obtain ⟨scheme, base, query, fragment⟩ := u
  obtain ⟨hs, hbh, hbq, hq⟩ := h
  dsimp only at hs hbh hbq hq
  have hsc : ':' ∉ scheme := validScheme_no hs (by decide) (by decide)
  cases query with
  | none =>
    cases fragment with
    | none =>
      have hser : serializeUrl ⟨scheme, base, none, none⟩ = scheme ++ ':' :: base := by
        rw [serializeUrl]; simp
      rw [hser, parseUrl_build hsc hs, splitFrag_of_no_hash hbh]
      dsimp only
      rw [splitQuery_of_no_q hbq]
    | some f =>
      have hser : serializeUrl ⟨scheme, base, none, some f⟩ =
          scheme ++ ':' :: (base ++ '#' :: f) := by
        rw [serializeUrl]; simp
      rw [hser, parseUrl_build hsc hs, splitFrag_append f hbh]
      dsimp only
      rw [splitQuery_of_no_q hbq]
  | some ps =>
    have hp : ∀ p ∈ ps, WfPair p := hq ps rfl
    have hjh : '#' ∉ joinPairs ps :=
      joinPairs_no_char (by decide) (by decide)
        (fun p hmem => ⟨(hp p hmem).2.2.1, (hp p hmem).2.2.2.2⟩)
    have hnq : '#' ∉ base ++ '?' :: joinPairs ps := by
      intro hmem
      rcases List.mem_append.mp hmem with h1 | h1
      · exact hbh h1
      · rcases List.mem_cons.mp h1 with h2 | h2
        · cases h2
        · exact hjh h2
    cases fragment with
    | none =>
      have hser : serializeUrl ⟨scheme, base, some ps, none⟩ =
          scheme ++ ':' :: (base ++ '?' :: joinPairs ps) := by
        rw [serializeUrl]; simp
      rw [hser, parseUrl_build hsc hs, splitFrag_of_no_hash hnq]
      dsimp only
      rw [splitQuery_append _ hbq]
      dsimp only
      rw [parseQuery_joinPairs hp]
    | some f =>
      have hser : serializeUrl ⟨scheme, base, some ps, some f⟩ =
          scheme ++ ':' :: ((base ++ '?' :: joinPairs ps) ++ '#' :: f) := by
        rw [serializeUrl]; simp
      rw [hser, parseUrl_build hsc hs, splitFrag_append f hnq]
      dsimp only
      rw [splitQuery_append _ hbq]
      dsimp only
      rw [parseQuery_joinPairs hp]

theorem mem_dropWhile_of_not {p : Char → Bool} {x : Char} :
    ∀ {l : List Char}, x ∈ l → p x = false → x ∈ l.dropWhile p := by
  intro l
  induction l with
  | nil => intro h; cases h
  | cons y ys ih =>
    intro hmem hx
    rw [List.dropWhile]
    cases hy : p y with
    | true =>
      rcases List.mem_cons.mp hmem with h1 | h1
      · rw [h1] at hx; rw [hx] at hy; cases hy
      · exact ih h1 hx
    | false => exact hmem

theorem trimChars_ne_nil {l : List Char} {c : Char} (hc : c ∈ l) (hw : jsTrimWs c = false) :
    trimChars l ≠ [] := by
  rw [trimChars]
  intro hnil
  rw [List.reverse_eq_nil_iff] at hnil
  have h1 : c ∈ l.dropWhile jsTrimWs := mem_dropWhile_of_not hc hw
  have h2 : c ∈ (l.dropWhile jsTrimWs).reverse := List.mem_reverse.mpr h1
  have h3 : c ∈ (l.dropWhile jsTrimWs).reverse.dropWhile jsTrimWs :=
    mem_dropWhile_of_not h2 hw
  rw [hnil] at h3
  cases h3

theorem isBlank_false_of_mem {l : List Char} {c : Char} (hc : c ∈ l) (hw : jsTrimWs c = false) :
    isBlank l = false := by
  rw [isBlank]
  have h1 : l.isEmpty = false := by
    cases l with
    | nil => cases hc
    | cons a as => rfl
  have h2 : (trimChars l).isEmpty = false := by
    have htrim := trimChars_ne_nil hc hw
    cases hcase : trimChars l with
    | nil => exact absurd hcase htrim
    | cons a as => rfl
  rw [h1, h2]
  rfl

theorem serializeUrl_not_blank {u : UrlParts} (h : validScheme u.scheme = true) :
    isBlank (serializeUrl u) = false := by
  obtain ⟨scheme, base, query, fragment⟩ := u
  cases scheme with
  | nil => cases h
  | cons c rest =>
    rw [validScheme, Bool.and_eq_true] at h
    have hcw : jsTrimWs c = false := alpha_not_trimWs h.1
    refine isBlank_false_of_mem ?_ hcw
    rw [serializeUrl]
    simp

theorem setPoolParams_idem (n : Nat) (ps : List (List Char × List Char)) :
    setPoolParams n (setPoolParams n ps) = setPoolParams n ps := by
  have hne12 : "connection_limit".data ≠ "pool_timeout".data := by decide
  have hne13 : "connection_limit".data ≠ "connect_timeout".data := by decide
  have hne14 : "connection_limit".data ≠ "statement_timeout".data := by decide
  have hne23 : "pool_timeout".data ≠ "connect_timeout".data := by decide
  have hne24 : "pool_timeout".data ≠ "statement_timeout".data := by decide
  have hne34 : "connect_timeout".data ≠ "statement_timeout".data := by decide
  set q := setPoolParams n ps with hq
  have e1 : entriesFor "connection_limit".data q = [("connection_limit".data, natToChars n)] := by
    rw [hq, setPoolParams, entriesFor_setParam_other hne14, entriesFor_setParam_other hne13,
      entriesFor_setParam_other hne12, entriesFor_setParam_self]
  have e2 : entriesFor "pool_timeout".data q = [("pool_timeout".data, "10".data)] := by
    rw [hq, setPoolParams, entriesFor_setParam_other hne24, entriesFor_setParam_other hne23,
      entriesFor_setParam_self]
  have e3 : entriesFor "connect_timeout".data q = [("connect_timeout".data, "30".data)] := by
    rw [hq, setPoolParams, entriesFor_setParam_other hne34, entriesFor_setParam_self]
  have e4 : entriesFor "statement_timeout".data q = [("statement_timeout".data, "30000".data)] := by
    rw [hq, setPoolParams, entriesFor_setParam_self]
  have s1 : setParam "connection_limit".data (natToChars n) q = q :=
    setParam_of_entriesFor _ _ q e1
  rw [setPoolParams, s1]
  have s2 : setParam "pool_timeout".data "10".data q = q :=
    setParam_of_entriesFor _ _ q e2
  rw [s2]
  have s3 : setParam "connect_timeout".data "30".data q = q :=
    setParam_of_entriesFor _ _ q e3
  rw [s3]
  exact setParam_of_entriesFor _ _ q e4

theorem removeKey_subset {k : List Char} {p : List Char × List Char} :
    ∀ {ps : List (List Char × List Char)}, p ∈ removeKey k ps → p ∈ ps := by
  intro ps
  induction ps with
  | nil => intro h; cases h
  | cons q rest ih =>
    intro h
    rw [removeKey] at h
    by_cases hq : q.1 = k
    · rw [if_pos hq] at h
      exact List.mem_cons_of_mem q (ih h)
    · rw [if_neg hq] at h
      rcases List.mem_cons.mp h with h1 | h1
      · exact h1 ▸ List.mem_cons_self q rest
      · exact List.mem_cons_of_mem q (ih h1)

theorem setParam_wf {k v : List Char} (hkv : WfPair (k, v)) :
    ∀ {ps : List (List Char × List Char)}, (∀ p ∈ ps, WfPair p) →
    ∀ p ∈ setParam k v ps, WfPair p := by
  intro ps
  induction ps with
  | nil =>
    intro _ p hp
    rw [setParam] at hp
    rcases List.mem_cons.mp hp with h1 | h1
    · exact h1 ▸ hkv
    · cases h1
  | cons q rest ih =>
    intro hps p hp
    rw [setParam] at hp
    by_cases hq : q.1 = k
    · rw [if_pos hq] at hp
      rcases List.mem_cons.mp hp with h1 | h1
      · exact h1 ▸ hkv
      · exact hps p (List.mem_cons_of_mem q (removeKey_subset h1))
    · rw [if_neg hq] at hp
      rcases List.mem_cons.mp hp with h1 | h1
      · exact h1 ▸ hps q (List.mem_cons_self q rest)
      · exact ih (fun r hr => hps r (List.mem_cons_of_mem q hr)) p h1

theorem natToChars_wf_value (n : Nat) : '&' ∉ natToChars n ∧ '#' ∉ natToChars n := by
  constructor <;> intro hmem <;>
    exact absurd (natToChars_all_digit n _ hmem) (by decide)

theorem setPoolParams_wf (n : Nat) {ps : List (List Char × List Char)}
    (hps : ∀ p ∈ ps, WfPair p) : ∀ p ∈ setPoolParams n ps, WfPair p := by
  rw [setPoolParams]
  have h1 : WfPair ("connection_limit".data, natToChars n) := by
    refine ⟨?_, ?_, ?_, ?_, ?_⟩
    · show '=' ∉ "connection_limit".data
      decide
    · show '&' ∉ "connection_limit".data
      decide
    · show '#' ∉ "connection_limit".data
      decide
    · exact (natToChars_wf_value n).1
    · exact (natToChars_wf_value n).2
  have h2 : WfPair ("pool_timeout".data, "10".data) :=
    ⟨by decide, by decide, by decide, by decide, by decide⟩
  have h3 : WfPair ("connect_timeout".data, "30".data) :=
    ⟨by decide, by decide, by decide, by decide, by decide⟩
  have h4 : WfPair ("statement_timeout".data, "30000".data) :=
    ⟨by decide, by decide, by decide, by decide, by decide⟩
  exact setParam_wf h4 (setParam_wf h3 (setParam_wf h2 (setParam_wf h1 hps)))

/-- Idempotence of the URL augmenter at the character-list level. -/
theorem addPoolParamsL_idem (l : List Char) (n : Nat) :
    addPoolParamsL (addPoolParamsL l n) n = addPoolParamsL l n := by
  by_cases hb : isBlank l = true
  · have h0 : addPoolParamsL l n = l := by rw [addPoolParamsL, if_pos hb]
    rw [h0]
    exact h0
  · cases hp : parseUrl l with
    | none =>
      have h0 : addPoolParamsL l n = l := by rw [addPoolParamsL, if_neg hb, hp]
      rw [h0]
      exact h0
    | some u =>
      have hwf : WfUrl u := parseUrl_wf hp
      have h1 : addPoolParamsL l n =
          serializeUrl { u with query := some (setPoolParams n (u.query.getD [])) } := by
        rw [addPoolParamsL, if_neg hb, hp]
      have hq0 : ∀ p ∈ u.query.getD [], WfPair p := by
        cases hu : u.query with
        | none => intro p hp2; cases hp2
        | some ps => exact fun p hp2 => hwf.query_ok ps hu p hp2
      have hwf' : WfUrl { u with query := some (setPoolParams n (u.query.getD [])) } :=
        ⟨hwf.scheme_ok, hwf.base_hash, hwf.base_query, by
          intro ps hps p hp2
          injection hps with hps
          exact setPoolParams_wf n hq0 p (hps ▸ hp2)⟩
      have h2 := parseUrl_serializeUrl hwf'
      have h3 : isBlank (serializeUrl
          { u with query := some (setPoolParams n (u.query.getD [])) }) = false :=
        serializeUrl_not_blank hwf.scheme_ok
      rw [h1, addPoolParamsL, if_neg (by rw [h3]; exact fun hc => Bool.noConfusion hc), h2]
      dsimp only
      rw [Option.getD_some, setPoolParams_idem n (u.query.getD [])]

/-! Registry lemmas. -/

theorem regGet_mem {k : String} {info : ConnectionInfo} :
    ∀ {l : List (String × ConnectionInfo)}, regGet k l = some info → (k, info) ∈ l := by
  intro l
  induction l with
  | nil => intro h; cases h
  | cons p rest ih =>
    intro h
    rw [regGet] at h
    by_cases hp : p.1 = k
    · rw [if_pos hp] at h
      injection h with h
      have hkp : (k, info) = p := by rw [← hp, ← h]
      rw [hkp]
      exact List.mem_cons_self p rest
    · rw [if_neg hp] at h
      exact List.mem_cons_of_mem p (ih h)

theorem regSet_mem {k : String} {v : ConnectionInfo} {q : String × ConnectionInfo} :
    ∀ {l : List (String × ConnectionInfo)}, q ∈ regSet k v l → q = (k, v) ∨ q ∈ l := by
  intro l
  induction l with
  | nil =>
    intro h
    rcases List.mem_cons.mp h with h1 | h1
    · exact Or.inl h1
    · cases h1
  | cons p rest ih =>
    intro h
    rw [regSet] at h
    by_cases hp : p.1 = k
    · rw [if_pos hp] at h
      rcases List.mem_cons.mp h with h1 | h1
      · exact Or.inl h1
      · exact Or.inr (List.mem_cons_of_mem p h1)
    · rw [if_neg hp] at h
      rcases List.mem_cons.mp h with h1 | h1
      · exact Or.inr (h1 ▸ List.mem_cons_self p rest)
      · rcases ih h1 with h2 | h2
        · exact Or.inl h2
        · exact Or.inr (List.mem_cons_of_mem p h2)

theorem regDelete_sublist (k : String) :
    ∀ l : List (String × ConnectionInfo), List.Sublist (regDelete k l) l := by
  intro l
  induction l with
  | nil => exact List.Sublist.refl []
  | cons p rest ih =>
    rw [regDelete]
    by_cases hp : p.1 = k
    · rw [if_pos hp]
      exact List.sublist_cons_self p rest
    · rw [if_neg hp]
      exact List.Sublist.cons₂ p ih

theorem regGet_eq_none_iff {k : String} :
    ∀ {l : List (String × ConnectionInfo)}, regGet k l = none ↔ ∀ p ∈ l, p.1 ≠ k := by
  intro l
  induction l with
  | nil => simp [regGet]
  | cons p rest ih =>
    rw [regGet]
    by_cases hp : p.1 = k
    · rw [if_pos hp]
      simp only [List.mem_cons]
      constructor
      · intro h; cases h
      · intro h; exact absurd hp (h p (Or.inl rfl))
    · rw [if_neg hp]
      simp only [List.mem_cons]
      constructor
      · intro h q hq
        rcases hq with h1 | h1
        · exact h1 ▸ hp
        · exact ih.mp h q h1
      · intro h
        exact ih.mpr (fun q hq => h q (Or.inr hq))

theorem regGet_none_of_sublist {k : String} {l l' : List (String × ConnectionInfo)}
    (hsub : List.Sublist l' l) (h : regGet k l = none) : regGet k l' = none :=
  regGet_eq_none_iff.mpr (fun p hp => regGet_eq_none_iff.mp h p (hsub.subset hp))

/-! Effect lemmas for `disconnectDatabase` and the sweep loops. -/

theorem disconnectDatabase_probed (c : Nat → Bool) (id : String) (s : DbState) :
    (disconnectDatabase c id s).probed = s.probed := by
  rw [disconnectDatabase]
  cases regGet id s.registry with
  | none => rfl
  | some info =>
    dsimp only
    by_cases hc : c info.client
    · rw [if_pos hc]
    · rw [if_neg hc]

theorem disconnectDatabase_master (c : Nat → Bool) (id : String) (s : DbState) :
    (disconnectDatabase c id s).masterClosed = s.masterClosed := by
  rw [disconnectDatabase]
  cases regGet id s.registry with
  | none => rfl
  | some info =>
    dsimp only
    by_cases hc : c info.client
    · rw [if_pos hc]
    · rw [if_neg hc]

theorem disconnectDatabase_sublist (c : Nat → Bool) (id : String) (s : DbState) :
    List.Sublist (disconnectDatabase c id s).registry s.registry := by
  rw [disconnectDatabase]
  cases regGet id s.registry with
  | none => exact List.Sublist.refl _
  | some info =>
    dsimp only
    by_cases hc : c info.client
    · rw [if_pos hc]; exact regDelete_sublist id s.registry
    · rw [if_neg hc]; exact regDelete_sublist id s.registry

theorem foldl_disconnect_probed (c : Nat → Bool) :
    ∀ (ids : List String) (s : DbState),
    (ids.foldl (fun st id => disconnectDatabase c id st) s).probed = s.probed := by
  intro ids
  induction ids with
  | nil => intro s; rfl
  | cons id rest ih =>
    intro s
    rw [List.foldl_cons, ih, disconnectDatabase_probed]

theorem foldl_disconnect_master (c : Nat → Bool) :
    ∀ (ids : List String) (s : DbState),
    (ids.foldl (fun st id => disconnectDatabase c id st) s).masterClosed = s.masterClosed := by
  intro ids
  induction ids with
  | nil => intro s; rfl
  | cons id rest ih =>
    intro s
    rw [List.foldl_cons, ih, disconnectDatabase_master]

theorem foldl_disconnect_sublist (c : Nat → Bool) :
    ∀ (ids : List String) (s : DbState),
    List.Sublist (ids.foldl (fun st id => disconnectDatabase c id st) s).registry
      s.registry := by
  intro ids
  induction ids with
  | nil => intro s; exact List.Sublist.refl _
  | cons id rest ih =>
    intro s
    rw [List.foldl_cons]
    exact (ih (disconnectDatabase c id s)).trans (disconnectDatabase_sublist c id s)

theorem cleanupStaleConnections_probed (env : Env) (s : DbState) :
    (cleanupStaleConnections env s).probed = s.probed :=
  foldl_disconnect_probed env.closeThrows _ s

theorem cleanupStaleConnections_master (env : Env) (s : DbState) :
    (cleanupStaleConnections env s).masterClosed = s.masterClosed :=
  foldl_disconnect_master env.closeThrows _ s

theorem cleanupStaleConnections_sublist (env : Env) (s : DbState) :
    List.Sublist (cleanupStaleConnections env s).registry s.registry :=
  foldl_disconnect_sublist env.closeThrows _ s

/-! Retry-loop lemmas. -/

theorem attemptLoopGo_error_state (env : Env) (url id : String) :
    ∀ (fuel tried : Nat) (lastError : Option String) (s : DbState) (e : String),
    (attemptLoopGo env url id fuel tried lastError s).outcome = Except.error e →
    (attemptLoopGo env url id fuel tried lastError s).state = s := by
  intro fuel
  induction fuel with
  | zero => intro tried lastError s e _; rfl
  | succ fuel ih =>
    intro tried lastError s e h
    rw [attemptLoopGo] at h ⊢
    cases hc : connAttempt env url tried with
    | ok client =>
      rw [hc] at h
      dsimp only at h
      cases h
    | error msg =>
      rw [hc] at h
      dsimp only at h ⊢
      exact ih (tried + 1) (some msg) s e h

theorem attemptLoopGo_attempts_le (env : Env) (url id : String) :
    ∀ (fuel tried : Nat) (lastError : Option String) (s : DbState),
    (attemptLoopGo env url id fuel tried lastError s).attemptsMade ≤ tried + fuel := by
  intro fuel
  induction fuel with
  | zero => intro tried lastError s; exact Nat.le_of_eq rfl
  | succ fuel ih =>
    intro tried lastError s
    rw [attemptLoopGo]
    cases hc : connAttempt env url tried with
    | ok client => dsimp only; omega
    | error msg =>
      have := ih (tried + 1) (some msg) s
      dsimp only
      omega

theorem disconnectDatabase_inv {c : Nat → Bool} {id : String} {s : DbState}
    (h : RegInv s) : RegInv (disconnectDatabase c id s) := by
  intro p hp
  have hreg := (disconnectDatabase_sublist c id s).subset hp
  rw [disconnectDatabase_probed]
  exact h p hreg

theorem foldl_disconnect_inv {c : Nat → Bool} :
    ∀ {ids : List String} {s : DbState}, RegInv s →
    RegInv (ids.foldl (fun st id => disconnectDatabase c id st) s) := by
  intro ids
  induction ids with
  | nil => intro s h; exact h
  | cons id rest ih =>
    intro s h
    rw [List.foldl_cons]
    exact ih (disconnectDatabase_inv h)

theorem cleanupStaleConnections_inv {env : Env} {s : DbState} (h : RegInv s) :
    RegInv (cleanupStaleConnections env s) :=
  foldl_disconnect_inv h

theorem attemptLoopGo_probed_mono (env : Env) (url id : String) :
    ∀ (fuel tried : Nat) (lastError : Option String) (s : DbState) (x : Nat),
    x ∈ s.probed → x ∈ (attemptLoopGo env url id fuel tried lastError s).state.probed := by
  intro fuel
  induction fuel with
  | zero => intro tried lastError s x hx; exact hx
  | succ fuel ih =>
    intro tried lastError s x hx
    rw [attemptLoopGo]
    cases hc : connAttempt env url tried with
    | ok client =>
      dsimp only
      exact List.mem_append_left _ hx
    | error msg =>
      dsimp only
      exact ih (tried + 1) (some msg) s x hx

theorem attemptLoopGo_inv (env : Env) (url id : String) :
    ∀ (fuel tried : Nat) (lastError : Option String) (s : DbState), RegInv s →
    RegInv (attemptLoopGo env url id fuel tried lastError s).state := by
  intro fuel
  induction fuel with
  | zero => intro tried lastError s h; exact h
  | succ fuel ih =>
    intro tried lastError s h
    rw [attemptLoopGo]
    cases hc : connAttempt env url tried with
    | ok client =>
      dsimp only
      intro p hp
      rcases regSet_mem hp with h1 | h1
      · rw [h1]
        exact ⟨rfl, List.mem_append_right _ (List.mem_singleton.mpr rfl)⟩
      · exact ⟨(h p h1).1, List.mem_append_left _ (h p h1).2⟩
    | error msg =>
      dsimp only
      exact ih (tried + 1) (some msg) s h

theorem attemptLoopGo_ok_probed (env : Env) (url id : String) :
    ∀ (fuel tried : Nat) (lastError : Option String) (s : DbState) (client : Nat),
    (attemptLoopGo env url id fuel tried lastError s).outcome = Except.ok client →
    client ∈ (attemptLoopGo env url id fuel tried lastError s).state.probed := by
  intro fuel
  induction fuel with
  | zero => intro tried lastError s client h; cases h
  | succ fuel ih =>
    intro tried lastError s client h
    rw [attemptLoopGo] at h ⊢
    cases hc : connAttempt env url tried with
    | ok c0 =>
      rw [hc] at h
      dsimp only at h ⊢
      injection h with h
      exact List.mem_append_right _ (List.mem_singleton.mpr h.symm)
    | error msg =>
      rw [hc] at h
      dsimp only at h ⊢
      exact ih (tried + 1) (some msg) s client h

theorem getDatabaseConnection_inv {env : Env} {url id : String} {s : DbState}
    (h : RegInv s) : RegInv (getDatabaseConnection env url id s).state := by
  rw [getDatabaseConnection]
  have h1 : RegInv (cleanupStaleConnections env s) := cleanupStaleConnections_inv h
  cases hg : regGet id (cleanupStaleConnections env s).registry with
  | some info =>
    dsimp only
    by_cases hic : info.isConnected
    · rw [if_pos hic]
      intro p hp
      rcases regSet_mem hp with h2 | h2
      · rw [h2]
        refine ⟨hic, ?_⟩
        exact (h1 _ (regGet_mem hg)).2
      · exact h1 p h2
    · rw [if_neg hic]
      exact attemptLoopGo_inv env url id MAX_RETRIES 0 none _
        (disconnectDatabase_inv h1)
  | none =>
    dsimp only
    exact attemptLoopGo_inv env url id MAX_RETRIES 0 none _ h1

theorem getDatabaseFromSession_state (env : Env)
    (lookup : String → Except String (Option SessionRecord))
    (databaseId databaseUrl : String) (s : DbState) :
    (getDatabaseFromSession env lookup databaseId databaseUrl s).state = s ∨
    (getDatabaseFromSession env lookup databaseId databaseUrl s).state =
      (getDatabaseConnection env databaseUrl databaseId s).state := by
  rw [getDatabaseFromSession]
  cases lookup databaseId with
  | error msg => exact Or.inl rfl
  | ok r =>
    cases r with
    | none => exact Or.inl rfl
    | some record =>
      dsimp only
      by_cases ha : record.isActive
      · rw [if_pos ha]
        cases (getDatabaseConnection env databaseUrl databaseId s).outcome with
        | ok client => exact Or.inr rfl
        | error e => exact Or.inr rfl
      · rw [if_neg ha]
        exact Or.inl rfl

theorem disconnectAllDatabases_inv {c : Nat → Bool} {mt : Bool} {s : DbState}
    (h : RegInv s) : RegInv (disconnectAllDatabases c mt s) := by
  rw [disconnectAllDatabases]
  have hmaster : RegInv (if mt then { s with masterClosed := true }
      else { s with masterClosed := true }) := by
    rw [ite_self]
    exact h
  exact foldl_disconnect_inv hmaster

theorem forceCleanup_loop (closeThrows : Nat → Bool) :
    ∀ (ids : List String) (s : DbState), s.registry = [] →
    ids.foldl
      (fun st id =>
        match regGet id st.registry with
        | some info => { st with closedClients := st.closedClients ++ [info.client] }
        | none => st)
      s = s := by
  intro ids
  induction ids with
  | nil => intro s _; rfl
  | cons id rest ih =>
    intro s hreg
    rw [List.foldl_cons]
    have hg : regGet id s.registry = none := by rw [hreg]; rfl
    rw [hg]
    exact ih s hreg

theorem forceCleanupConnections_spec (closeThrows : Nat → Bool) (s : DbState) :
    forceCleanupConnections closeThrows s = { s with registry := [] } := by
  rw [forceCleanupConnections]
  exact forceCleanup_loop closeThrows _ _ rfl

theorem forceCleanupConnections_inv {c : Nat → Bool} {s : DbState} :
    RegInv (forceCleanupConnections c s) := by
  rw [forceCleanupConnections_spec]
  intro p hp
  cases hp

/-! Drain loop (`disconnectAllDatabases`). -/

theorem drainLoop (closeThrows : Nat → Bool) :
    ∀ (l : List (String × ConnectionInfo)) (s : DbState), s.registry = l →
    ((l.map Prod.fst).foldl (fun st id => disconnectDatabase closeThrows id st) s) =
      { s with registry := [],
               closedClients := s.closedClients ++ l.map (fun p => p.2.client) } := by
  intro l
  induction l with
  | nil =>
    intro s hreg
    rw [List.map_nil, List.foldl_nil, List.map_nil, List.append_nil, ← hreg]
  | cons p rest ih =>
    intro s hreg
    rw [List.map_cons, List.foldl_cons]
    have hg : regGet p.1 s.registry = some p.2 := by
      rw [hreg, regGet, if_pos rfl]
    have hdel : regDelete p.1 s.registry = rest := by
      rw [hreg, regDelete, if_pos rfl]
    have hd : disconnectDatabase closeThrows p.1 s =
        { s with registry := rest, closedClients := s.closedClients ++ [p.2.client] } := by
      rw [disconnectDatabase, hg]
      dsimp only
      rw [ite_self, hdel]
    rw [hd, ih _ rfl]
    dsimp only
    rw [List.map_cons, List.append_assoc]
    rfl

/-! Nodup-key lemmas for the eviction path. -/

theorem regGet_regDelete {k : String} :
    ∀ {l : List (String × ConnectionInfo)}, (l.map Prod.fst).Nodup →
    regGet k (regDelete k l) = none := by
  intro l
  induction l with
  | nil => intro _; rfl
  | cons p rest ih =>
    intro hnd
    rw [List.map_cons, List.nodup_cons] at hnd
    rw [regDelete]
    by_cases hp : p.1 = k
    · rw [if_pos hp]
      refine regGet_eq_none_iff.mpr ?_
      intro q hq hqk
      exact hnd.1 (hp ▸ hqk ▸ List.mem_map_of_mem Prod.fst hq)
    · rw [if_neg hp, regGet, if_neg hp]
      exact ih hnd.2

theorem disconnectDatabase_regGet_none {c : Nat → Bool} {id : String} {s : DbState}
    (hnd : (s.registry.map Prod.fst).Nodup) :
    regGet id (disconnectDatabase c id s).registry = none := by
  rw [disconnectDatabase]
  cases hg : regGet id s.registry with
  | none => exact hg
  | some info =>
    dsimp only
    rw [ite_self]
    exact regGet_regDelete hnd

/-! Step equations for the retry loop at concrete fuel. -/

theorem attemptLoopGo_zero (env : Env) (url id : String) (tried : Nat)
    (lastError : Option String) (s : DbState) :
    attemptLoopGo env url id 0 tried lastError s =
      { outcome := Except.error (connectFailMsg id lastError),
        state := s, delays := [], attemptsMade := tried } := rfl

theorem attemptLoopGo_succ_error (env : Env) (url id : String)
    (fuel tried : Nat) (lastError : Option String) (s : DbState) (msg : String)
    (h : connAttempt env url tried = Except.error msg) :
    attemptLoopGo env url id (fuel + 1) tried lastError s =
      { attemptLoopGo env url id fuel (tried + 1) (some msg) s with
        delays := (if tried + 1 < MAX_RETRIES then [RETRY_DELAY * (tried + 1)] else [])
          ++ (attemptLoopGo env url id fuel (tried + 1) (some msg) s).delays } := by
  rw [attemptLoopGo, h]

theorem attemptLoop_all_fail (env : Env) (url id : String) (s : DbState)
    {m0 m1 m2 : String}
    (h0 : connAttempt env url 0 = Except.error m0)
    (h1 : connAttempt env url 1 = Except.error m1)
    (h2 : connAttempt env url 2 = Except.error m2) :
    attemptLoopGo env url id MAX_RETRIES 0 none s =
      { outcome := Except.error (connectFailMsg id (some m2)),
        state := s, delays := [RETRY_DELAY * 1, RETRY_DELAY * 2], attemptsMade := 3 } := by
  have st2 : attemptLoopGo env url id 1 2 (some m1) s =
      { outcome := Except.error (connectFailMsg id (some m2)),
        state := s, delays := [], attemptsMade := 3 } := by
    have := attemptLoopGo_succ_error env url id 0 2 (some m1) s m2 h2
    rw [this, attemptLoopGo_zero]
    rw [if_neg (by decide : ¬ (2 + 1 < MAX_RETRIES))]
    rfl
  have st1 : attemptLoopGo env url id 2 1 (some m0) s =
      { outcome := Except.error (connectFailMsg id (some m2)),
        state := s, delays := [RETRY_DELAY * 2], attemptsMade := 3 } := by
    have := attemptLoopGo_succ_error env url id 1 1 (some m0) s m1 h1
    rw [this, st2]
    rw [if_pos (by decide : 1 + 1 < MAX_RETRIES)]
    rfl
  have st0 : attemptLoopGo env url id 3 0 none s =
      { outcome := Except.error (connectFailMsg id (some m2)),
        state := s, delays := [RETRY_DELAY * 1, RETRY_DELAY * 2], attemptsMade := 3 } := by
    have := attemptLoopGo_succ_error env url id 2 0 none s m0 h0
    rw [this, st1]
    rw [if_pos (by decide : 0 + 1 < MAX_RETRIES)]
    rfl
  exact st0

/-! Failure-path and success-path lemmas for `getDatabaseConnection`. -/

theorem getDatabaseConnection_error_shape {env : Env} {url id : String} {s : DbState}
    {e : String}
    (h : (getDatabaseConnection env url id s).outcome = Except.error e) :
    ((getDatabaseConnection env url id s).state.registry =
        (cleanupStaleConnections env s).registry ∧
      regGet id (cleanupStaleConnections env s).registry = none) ∨
    (getDatabaseConnection env url id s).state =
        disconnectDatabase env.closeThrows id (cleanupStaleConnections env s) := by
  rw [getDatabaseConnection] at h ⊢
  cases hg : regGet id (cleanupStaleConnections env s).registry with
  | some info =>
    rw [hg] at h
    dsimp only at h ⊢
    by_cases hic : info.isConnected
    · rw [if_pos hic] at h
      cases h
    · rw [if_neg hic] at h ⊢
      exact Or.inr (attemptLoopGo_error_state env url id MAX_RETRIES 0 none _ e h)
  | none =>
    rw [hg] at h
    dsimp only at h ⊢
    rw [attemptLoopGo_error_state env url id MAX_RETRIES 0 none _ e h]
    exact Or.inl ⟨rfl, rfl⟩

theorem getDatabaseConnection_ok_probed {env : Env} {url id : String} {s : DbState}
    (hinv : RegInv s) {client : Nat}
    (h : (getDatabaseConnection env url id s).outcome = Except.ok client) :
    client ∈ (getDatabaseConnection env url id s).state.probed := by
  have h1 : RegInv (cleanupStaleConnections env s) := cleanupStaleConnections_inv hinv
  rw [getDatabaseConnection] at h ⊢
  cases hg : regGet id (cleanupStaleConnections env s).registry with
  | some info =>
    rw [hg] at h
    dsimp only at h ⊢
    by_cases hic : info.isConnected
    · rw [if_pos hic] at h ⊢
      dsimp only at h ⊢
      injection h with h
      rw [← h]
      exact (h1 _ (regGet_mem hg)).2
    · rw [if_neg hic] at h ⊢
      exact attemptLoopGo_ok_probed env url id MAX_RETRIES 0 none _ client h
  | none =>
    rw [hg] at h
    dsimp only at h ⊢
    exact attemptLoopGo_ok_probed env url id MAX_RETRIES 0 none _ client h

/-! Session resolution lemmas. -/

theorem getDatabaseFromSession_masterQueries (env : Env)
    (lookup : String → Except String (Option SessionRecord))
    (databaseId databaseUrl : String) (s : DbState) :
    (getDatabaseFromSession env lookup databaseId databaseUrl s).masterQueries = 1 := by
  rw [getDatabaseFromSession]
  cases lookup databaseId with
  | error msg => rfl
  | ok r =>
    cases r with
    | none => rfl
    | some record =>
      dsimp only
      by_cases ha : record.isActive
      · rw [if_pos ha]
        cases (getDatabaseConnection env databaseUrl databaseId s).outcome with
        | ok client => rfl
        | error e => rfl
      · rw [if_neg ha]

theorem getDatabaseFromSession_active (env : Env)
    {lookup : String → Except String (Option SessionRecord)}
    {databaseId : String} (databaseUrl : String) (s : DbState) {record : SessionRecord}
    (hl : lookup databaseId = Except.ok (some record)) (ha : record.isActive = true) :
    (getDatabaseFromSession env lookup databaseId databaseUrl s).state =
      (getDatabaseConnection env databaseUrl databaseId s).state ∧
    (∀ client, (getDatabaseConnection env databaseUrl databaseId s).outcome =
        Except.ok client →
      (getDatabaseFromSession env lookup databaseId databaseUrl s).outcome =
        Except.ok (client, record)) ∧
    (∀ e, (getDatabaseConnection env databaseUrl databaseId s).outcome =
        Except.error e →
      (getDatabaseFromSession env lookup databaseId databaseUrl s).outcome =
        Except.error e) := by
  rw [getDatabaseFromSession, hl]
  dsimp only
  rw [if_pos ha]
  refine ⟨?_, ?_, ?_⟩
  · cases ho : (getDatabaseConnection env databaseUrl databaseId s).outcome with
    | ok client => rfl
    | error e => rfl
  · intro client hok
    rw [hok]
  · intro e herr
    rw [herr]

/-! Fan-out collection lemma. -/

theorem execBatches_eq_map {T : Type} (run : DatabaseRecord → Except String T) :
    ∀ (n : Nat) (dbs : List DatabaseRecord), dbs.length ≤ n →
    execBatches run dbs = dbs.map (runOne run) := by
  intro n
  induction n with
  | zero =>
    intro dbs hlen
    cases dbs with
    | nil => rw [execBatches]; rfl
    | cons d ds => exact absurd hlen (by simp)
  | succ n ih =>
    intro dbs hlen
    cases dbs with
    | nil => rw [execBatches]; rfl
    | cons d ds =>
      rw [execBatches]
      have hdrop : ((d :: ds).drop 3).length ≤ n := by
        rw [List.length_drop]
        simp only [List.length_cons] at hlen ⊢
        omega
      rw [ih _ hdrop, ← List.map_append, List.take_append_drop]

theorem executeAcrossAllDatabases_eq_map {T : Type} (run : DatabaseRecord → Except String T)
    (databases : List DatabaseRecord) :
    executeAcrossAllDatabases run databases = databases.map (runOne run) :=
  execBatches_eq_map run databases.length databases (Nat.le_refl _)

theorem jsOr_skip {a : Option String} {b : String} (h : a = none ∨ a = some "") :
    jsOr a b = b := by
  rcases h with h | h <;> rw [h, jsOr]
  rw [if_pos rfl]

theorem jsOr_take {a : Option String} {m b : String} (h : a = some m) (hm : m ≠ "") :
    jsOr a b = m := by
  rw [h, jsOr, if_neg hm]

theorem getMasterDatabaseUrl_blank {env : List (String × String)}
    (h : isBlank (chosenMasterUrl env).data = true) :
    getMasterDatabaseUrl env = Except.error "Master database URL is not configured" := by
  rw [getMasterDatabaseUrl, if_pos h]

theorem getMasterDatabaseUrl_ok {env : List (String × String)}
    (h : isBlank (chosenMasterUrl env).data = false) :
    getMasterDatabaseUrl env = Except.ok (chosenMasterUrl env) := by
  rw [getMasterDatabaseUrl, if_neg (by rw [h]; exact fun hc => Bool.noConfusion hc)]

theorem initMasterDb_of_error {env : List (String × String)} {msg : String}
    (h : getMasterDatabaseUrl env = Except.error msg) :
    initMasterDb env = { url := "postgresql://localhost:5432/dummy", isDummy := true } := by
  rw [initMasterDb, h]

theorem initMasterDb_of_ok {env : List (String × String)} {u : String}
    (h : getMasterDatabaseUrl env = Except.ok u) :
    initMasterDb env =
      { url := addConnectionPoolParams u MASTER_CONNECTION_LIMIT, isDummy := false } := by
  rw [initMasterDb, h]

/-- The general retry bound of `getDatabaseConnection`. -/
theorem getDatabaseConnection_attempts_le (env : Env) (url id : String) (s : DbState) :
    (getDatabaseConnection env url id s).attemptsMade ≤ MAX_RETRIES := by
  rw [getDatabaseConnection]
  cases hg : regGet id (cleanupStaleConnections env s).registry with
  | some info =>
    dsimp only
    by_cases hic : info.isConnected
    · rw [if_pos hic]
      exact Nat.zero_le _
    · rw [if_neg hic]
      exact attemptLoopGo_attempts_le env url id MAX_RETRIES 0 none _
  | none =>
    dsimp only
    exact attemptLoopGo_attempts_le env url id MAX_RETRIES 0 none _

theorem reachable_inv {s : DbState} (h : Reachable s) : RegInv s := by
  induction h with
  | init => intro p hp; cases hp
  | conn env url id hr ih => exact getDatabaseConnection_inv ih
  | @session env lookup id url s2 hr ih =>
    rcases getDatabaseFromSession_state env lookup id url s2 with heq | heq
    · rw [heq]; exact ih
    · rw [heq]; exact getDatabaseConnection_inv ih
  | disc c id hr ih => exact disconnectDatabase_inv ih
  | sweep env hr ih => exact cleanupStaleConnections_inv ih
  | drainAll c mt hr ih => exact disconnectAllDatabases_inv ih
  | force c hr ih => exact forceCleanupConnections_inv

/-! Indexed-access helpers. -/

theorem list_get_congr {α : Type} : ∀ {l l2 : List α}, l = l2 →
    ∀ (k : Nat) (h1 : k < l.length) (h2 : k < l2.length),
    l.get ⟨k, h1⟩ = l2.get ⟨k, h2⟩ := by
  intro l l2 h
  subst h
  intro k h1 h2
  rfl

theorem list_get_map {α β : Type} (f : α → β) :
    ∀ (l : List α) (k : Nat) (h1 : k < (l.map f).length) (h2 : k < l.length),
    (l.map f).get ⟨k, h1⟩ = f (l.get ⟨k, h2⟩) := by
  intro l
  induction l with
  | nil => intro k h1 h2; cases h2
  | cons a rest ih =>
    intro k h1 h2
    cases k with
    | zero => rfl
    | succ k =>
      exact ih k (Nat.lt_of_succ_lt_succ (by simpa using h1))
        (Nat.lt_of_succ_lt_succ h2)

/-! Claim theorems. -/

/-- Claim C5: for every starting registry state, `forceCleanupConnections` leaves
the registry empty and never invokes `$disconnect` on any client that was
cached before the call, because the map is cleared before the per-id
lookups of the close phase. -/
theorem forceCleanupConnections_empties_without_closing
    (closeThrows : Nat → Bool) (s : DbState) :
    (forceCleanupConnections closeThrows s).registry = [] ∧
    (forceCleanupConnections closeThrows s).closedClients = s.closedClients := by
  rw [forceCleanupConnections_spec]
  exact ⟨rfl, rfl⟩

/-- Claim C7: `disconnectAllDatabases` (a total function, hence never raising)
leaves the registry empty, attempts the master close, and attempts a close
on every previously cached tenant client, for every close-failure pattern
`closeThrows`/`masterThrows`; throwing closes are swallowed and the
entries removed regardless. -/
theorem disconnectAllDatabases_drains_all
    (closeThrows : Nat → Bool) (masterThrows : Bool) (s : DbState) :
    (disconnectAllDatabases closeThrows masterThrows s).registry = [] ∧
    (disconnectAllDatabases closeThrows masterThrows s).masterClosed = true ∧
    (disconnectAllDatabases closeThrows masterThrows s).closedClients =
      s.closedClients ++ s.registry.map (fun p => p.2.client) := by
  rw [disconnectAllDatabases, ite_self]
  rw [drainLoop closeThrows s.registry { s with masterClosed := true } rfl]
  exact ⟨rfl, rfl, rfl⟩

/-- Claim C9: the URL augmenter is idempotent — augmenting twice with the same
pool limit yields the same string as augmenting once, for every input
string and limit. -/
theorem addConnectionPoolParams_idem (url : String) (n : Nat) :
    addConnectionPoolParams (addConnectionPoolParams url n) n =
      addConnectionPoolParams url n := by
  show String.mk (addPoolParamsL (String.mk (addPoolParamsL url.data n)).data n) =
    String.mk (addPoolParamsL url.data n)
  exact congrArg String.mk (addPoolParamsL_idem url.data n)

/-- Claim C10: in every reachable registry state, every cached entry has
`isConnected = true`, so the eviction branch of `getDatabaseConnection`
for a found-but-disconnected entry can never fire. -/
theorem registry_entries_always_connected {s : DbState} (h : Reachable s)
    (id : String) (info : ConnectionInfo)
    (hg : regGet id s.registry = some info) : info.isConnected = true :=
  (reachable_inv h (id, info) (regGet_mem hg)).1

/-- Witness for C10 at the reachable state produced by one successful
connect from a fresh process. -/
theorem registry_entries_always_connected_witness :
    ({ client := 100, lastUsed := 100000, isConnected := true,
       retryCount := 0 } : ConnectionInfo).isConnected = true :=
  registry_entries_always_connected
    (Reachable.conn envOK "postgresql://x" "B" Reachable.init) "B"
    { client := 100, lastUsed := 100000, isConnected := true, retryCount := 0 }
    (by decide)

/-- Counterexample for C1: a failing `getDatabaseConnection` call can leave the
registry different from before — here the opportunistic stale sweep
removes tenant A's entry even though the call for tenant B then fails. -/
theorem getDatabaseConnection_failure_shrinks_registry :
    (getDatabaseConnection envFail "postgresql://u" "B" staleState).outcome =
      Except.error "Failed to connect to database B after 3 attempts: boom" ∧
    (getDatabaseConnection envFail "postgresql://u" "B" staleState).state.registry = [] ∧
    staleState.registry ≠ [] :=
  ⟨rfl, rfl, by decide⟩

/-- Claim C1 as amended: on every failing call, the registry is changed only by
deletions — the resulting registry is a subsequence of the initial one (no
entry is added, none is modified) and no entry for the requested id
remains. -/
theorem getDatabaseConnection_failure_only_deletes (env : Env) (url id : String)
    (s : DbState) (e : String) (hnd : (s.registry.map Prod.fst).Nodup)
    (h : (getDatabaseConnection env url id s).outcome = Except.error e) :
    List.Sublist (getDatabaseConnection env url id s).state.registry s.registry ∧
    regGet id (getDatabaseConnection env url id s).state.registry = none := by
  rcases getDatabaseConnection_error_shape h with ⟨hreg, hnone⟩ | hstate
  · constructor
    · rw [hreg]; exact cleanupStaleConnections_sublist env s
    · rw [hreg]; exact hnone
  · have hnd1 : ((cleanupStaleConnections env s).registry.map Prod.fst).Nodup :=
      List.Nodup.sublist ((cleanupStaleConnections_sublist env s).map Prod.fst) hnd
    constructor
    · rw [hstate]
      exact (disconnectDatabase_sublist _ _ _).trans (cleanupStaleConnections_sublist env s)
    · rw [hstate]
      exact disconnectDatabase_regGet_none hnd1

/-- Witness for the amended C1 at a concrete failing call. -/
theorem getDatabaseConnection_failure_only_deletes_witness :
    List.Sublist
      (getDatabaseConnection envFail "postgresql://u" "B" staleState).state.registry
      staleState.registry ∧
    regGet "B" (getDatabaseConnection envFail "postgresql://u" "B" staleState).state.registry
      = none :=
  getDatabaseConnection_failure_only_deletes envFail "postgresql://u" "B" staleState
    "Failed to connect to database B after 3 attempts: boom" (by decide) rfl

/-- Counterexample for C2: with none of the three environment variables set, a
master handle is still produced — module initialisation catches the
configuration error and builds the dummy client, so first use does not
fail fast. -/
theorem initMasterDb_no_env_produces_dummy :
    initMasterDb [] = { url := "postgresql://localhost:5432/dummy", isDummy := true } := by
  decide

/-- Claim C2 as amended: the DSN is chosen as the first truthy of
`MASTER_DATABASE_URL`, `DATABASE_URL`, `POSTGRES_URL`;
`getMasterDatabaseUrl` throws a configuration error when all are unset or
empty, but the eager module initialisation catches it and produces the
dummy client rather than failing; with a non-blank choice the client is
built over the pool-augmented chosen DSN. -/
theorem masterUrl_priority_and_dummy_fallback (env : List (String × String)) :
    (∀ m, envLookup env "MASTER_DATABASE_URL" = some m → m ≠ "" →
      chosenMasterUrl env = m) ∧
    (unsetOrEmpty env "MASTER_DATABASE_URL" →
      ∀ d, envLookup env "DATABASE_URL" = some d → d ≠ "" → chosenMasterUrl env = d) ∧
    (unsetOrEmpty env "MASTER_DATABASE_URL" → unsetOrEmpty env "DATABASE_URL" →
      ∀ p, envLookup env "POSTGRES_URL" = some p → p ≠ "" → chosenMasterUrl env = p) ∧
    (unsetOrEmpty env "MASTER_DATABASE_URL" → unsetOrEmpty env "DATABASE_URL" →
      unsetOrEmpty env "POSTGRES_URL" →
      getMasterDatabaseUrl env = Except.error "Master database URL is not configured" ∧
      initMasterDb env = { url := "postgresql://localhost:5432/dummy", isDummy := true }) ∧
    (isBlank (chosenMasterUrl env).data = false →
      getMasterDatabaseUrl env = Except.ok (chosenMasterUrl env) ∧
      initMasterDb env =
        { url := addConnectionPoolParams (chosenMasterUrl env) MASTER_CONNECTION_LIMIT,
          isDummy := false }) := by
  refine ⟨?_, ?_, ?_, ?_, ?_⟩
  · intro m hm hm0
    rw [chosenMasterUrl, jsOr_take hm hm0]
  · intro hm1 d hd hd0
    rw [chosenMasterUrl, jsOr_skip hm1, jsOr_take hd hd0]
  · intro hm1 hm2 p hp hp0
    rw [chosenMasterUrl, jsOr_skip hm1, jsOr_skip hm2, jsOr_take hp hp0]
  · intro hm1 hm2 hm3
    have hch : chosenMasterUrl env = "" := by
      rw [chosenMasterUrl, jsOr_skip hm1, jsOr_skip hm2, jsOr_skip hm3]
    have hres := getMasterDatabaseUrl_blank
      (show isBlank (chosenMasterUrl env).data = true by rw [hch]; decide)
    exact ⟨hres, initMasterDb_of_error hres⟩
  · intro hnb
    have hres := getMasterDatabaseUrl_ok hnb
    exact ⟨hres, initMasterDb_of_ok hres⟩

/-- Witness for the amended C2: priority pick from `POSTGRES_URL` alone,
and the configuration error on an empty environment. -/
theorem masterUrl_priority_and_dummy_fallback_witness :
    chosenMasterUrl [("POSTGRES_URL", "postgresql://p")] = "postgresql://p" ∧
    getMasterDatabaseUrl [] = Except.error "Master database URL is not configured" := by
  constructor
  · exact (masterUrl_priority_and_dummy_fallback [("POSTGRES_URL", "postgresql://p")]).2.2.1
      (Or.inl rfl) (Or.inl rfl) "postgresql://p" rfl (by decide)
  · exact ((masterUrl_priority_and_dummy_fallback []).2.2.2.1 (Or.inl rfl) (Or.inl rfl)
      (Or.inl rfl)).1

/-- Counterexample for C3: with the connection string already supplied by the
session, `getDatabaseFromSession` still consults the master catalog — the
same call with the same supplied URL gives different outcomes under two
catalogs, and the master-query count is 1, not 0. -/
theorem getDatabaseFromSession_consults_master :
    (getDatabaseFromSession envOK lookupNone "B" "postgresql://x" initState).outcome =
      Except.error "Database not found" ∧
    (getDatabaseFromSession envOK lookupInactive "B" "postgresql://x" initState).outcome =
      Except.error "Database is not active" ∧
    (getDatabaseFromSession envOK lookupNone "B" "postgresql://x"
      initState).masterQueries = 1 ∧
    ("postgresql://x" : String) ≠ "" :=
  ⟨rfl, rfl, rfl, by decide⟩

/-- Claim C3 as amended: `getDatabaseFromSession` always issues exactly one
master-catalog query (for metadata and the active check) even when the
session supplies the URL, but the supplied URL itself is used directly for
the tenant connection — the resulting state and outcome are those of
`getDatabaseConnection` applied to the supplied string. -/
theorem getDatabaseFromSession_one_master_query_and_supplied_url (env : Env)
    (lookup : String → Except String (Option SessionRecord))
    (databaseId databaseUrl : String) (s : DbState) :
    (getDatabaseFromSession env lookup databaseId databaseUrl s).masterQueries = 1 ∧
    (∀ record, lookup databaseId = Except.ok (some record) → record.isActive = true →
      (getDatabaseFromSession env lookup databaseId databaseUrl s).state =
        (getDatabaseConnection env databaseUrl databaseId s).state ∧
      (∀ client, (getDatabaseConnection env databaseUrl databaseId s).outcome =
          Except.ok client →
        (getDatabaseFromSession env lookup databaseId databaseUrl s).outcome =
          Except.ok (client, record)) ∧
      (∀ e, (getDatabaseConnection env databaseUrl databaseId s).outcome =
          Except.error e →
        (getDatabaseFromSession env lookup databaseId databaseUrl s).outcome =
          Except.error e)) := by
  refine ⟨getDatabaseFromSession_masterQueries env lookup databaseId databaseUrl s, ?_⟩
  intro record hl ha
  exact getDatabaseFromSession_active env databaseUrl s hl ha

/-- Witness for the amended C3 at a concrete active tenant. -/
theorem getDatabaseFromSession_one_master_query_and_supplied_url_witness :
    (getDatabaseFromSession envOK lookupActive "B" "postgresql://x"
      initState).masterQueries = 1 ∧
    (getDatabaseFromSession envOK lookupActive "B" "postgresql://x" initState).outcome =
      Except.ok (100, recActive) := by
  obtain ⟨h1, h2⟩ := getDatabaseFromSession_one_master_query_and_supplied_url envOK
    lookupActive "B" "postgresql://x" initState
  exact ⟨h1, (h2 recActive rfl rfl).2.1 100 rfl⟩

/-- Counterexample for C4: the legacy `getPrismaClientByDatabaseId` returns and
caches a handle for a resolvable catalog entry without any liveness probe
(its probe log stays empty). -/
theorem getPrismaClientByDatabaseId_unprobed_handle :
    (getPrismaClientByDatabaseId pmLookupT 99 "T" pmInit).1 = some 99 ∧
    (getPrismaClientByDatabaseId pmLookupT 99 "T" pmInit).2.probed = [] :=
  ⟨rfl, rfl⟩

/-- Claim C4 as amended: `getDatabaseConnection` never hands out an unprobed handle
— from any reachable state, a returned client has passed the `$connect`
liveness race before being returned or cached. -/
theorem getDatabaseConnection_handle_probed (env : Env) (url id : String) {s : DbState}
    (h : Reachable s) (client : Nat)
    (hok : (getDatabaseConnection env url id s).outcome = Except.ok client) :
    client ∈ (getDatabaseConnection env url id s).state.probed :=
  getDatabaseConnection_ok_probed (reachable_inv h) hok

/-- Witness for the amended C4 at a fresh process with a succeeding
connect. -/
theorem getDatabaseConnection_handle_probed_witness :
    100 ∈ (getDatabaseConnection envOK "postgresql://x" "B" initState).state.probed :=
  getDatabaseConnection_handle_probed envOK "postgresql://x" "B" Reachable.init 100 rfl

/-- Claim C6: when a new tenant connection is being established and every raced
attempt fails, `getDatabaseConnection` makes exactly 3 attempts, sleeps
`RETRY_DELAY * 1` then `RETRY_DELAY * 2` between consecutive attempts, and
fails with a message carrying the tenant id, the attempt count and the
last underlying error; in general at most `MAX_RETRIES` attempts are ever
made, and an attempt lasting the full budget is decided by the timeout. -/
theorem getDatabaseConnection_retry_policy (env : Env) (url id : String) (s : DbState)
    (m0 m1 m2 : String)
    (h0 : connAttempt env url 0 = Except.error m0)
    (h1 : connAttempt env url 1 = Except.error m1)
    (h2 : connAttempt env url 2 = Except.error m2)
    (hreg : regGet id (cleanupStaleConnections env s).registry = none) :
    (getDatabaseConnection env url id s).attemptsMade = 3 ∧
    (getDatabaseConnection env url id s).delays = [RETRY_DELAY * 1, RETRY_DELAY * 2] ∧
    (getDatabaseConnection env url id s).outcome =
      Except.error ("Failed to connect to database " ++ id ++ " after "
        ++ toString MAX_RETRIES ++ " attempts: " ++ m2) ∧
    (∀ (env2 : Env) (url2 id2 : String) (s2 : DbState),
      (getDatabaseConnection env2 url2 id2 s2).attemptsMade ≤ MAX_RETRIES) ∧
    (∀ a : ConnectAttempt, CONNECTION_TIMEOUT ≤ a.duration →
      raceWithTimeout a = Except.error "Connection timeout") := by
  have hcomp : getDatabaseConnection env url id s =
      attemptLoopGo env url id MAX_RETRIES 0 none (cleanupStaleConnections env s) := by
    rw [getDatabaseConnection, hreg]
  rw [hcomp, attemptLoop_all_fail env url id _ h0 h1 h2]
  refine ⟨rfl, rfl, rfl, getDatabaseConnection_attempts_le, ?_⟩
  intro a ha
  rw [raceWithTimeout, if_neg (by omega)]

/-- Witness for C6 at a concrete environment where every attempt rejects. -/
theorem getDatabaseConnection_retry_policy_witness :
    (getDatabaseConnection envFail "postgresql://u" "B" initState).attemptsMade = 3 ∧
    (getDatabaseConnection envFail "postgresql://u" "B" initState).delays =
      [RETRY_DELAY * 1, RETRY_DELAY * 2] := by
  obtain ⟨ha, hd, _⟩ := getDatabaseConnection_retry_policy envFail "postgresql://u" "B"
    initState "boom" "boom" "boom" rfl rfl rfl rfl
  exact ⟨ha, hd⟩

/-- Claim C8: the fan-out returns one record per active tenant in tenant-list
order; a tenant whose operation throws yields a null result carrying that
error, and every record is `runOne` of its own tenant alone, so one
tenant's failure cannot affect another's record. -/
theorem executeAcrossAllDatabases_per_tenant {T : Type}
    (run : DatabaseRecord → Except String T) (databases : List DatabaseRecord) :
    (executeAcrossAllDatabases run databases).length = databases.length ∧
    executeAcrossAllDatabases run databases = databases.map (runOne run) ∧
    ∀ k, (hk : k < databases.length) →
      ∃ hk2 : k < (executeAcrossAllDatabases run databases).length,
        ((executeAcrossAllDatabases run databases).get ⟨k, hk2⟩).databaseId =
          (databases.get ⟨k, hk⟩).id ∧
        (∀ e, run (databases.get ⟨k, hk⟩) = Except.error e →
          ((executeAcrossAllDatabases run databases).get ⟨k, hk2⟩).result = none ∧
          ((executeAcrossAllDatabases run databases).get ⟨k, hk2⟩).error = some e) ∧
        (∀ r, run (databases.get ⟨k, hk⟩) = Except.ok r →
          ((executeAcrossAllDatabases run databases).get ⟨k, hk2⟩).result = some r ∧
          ((executeAcrossAllDatabases run databases).get ⟨k, hk2⟩).error = none) := by
  have heq := executeAcrossAllDatabases_eq_map run databases
  have hlen : (executeAcrossAllDatabases run databases).length = databases.length := by
    rw [heq, List.length_map]
  refine ⟨hlen, heq, ?_⟩
  intro k hk
  have hk2 : k < (executeAcrossAllDatabases run databases).length := by
    rw [hlen]; exact hk
  have hk3 : k < (databases.map (runOne run)).length := by
    rw [List.length_map]; exact hk
  have hget : (executeAcrossAllDatabases run databases).get ⟨k, hk2⟩ =
      runOne run (databases.get ⟨k, hk⟩) := by
    rw [list_get_congr heq k hk2 hk3, list_get_map (runOne run) databases k hk3 hk]
  refine ⟨hk2, ?_, ?_, ?_⟩
  · cases hr : run (databases.get ⟨k, hk⟩) with
    | ok r => rw [hget, runOne, hr]
    | error e => rw [hget, runOne, hr]
  · intro e he
    rw [hget, runOne, he]
    exact ⟨rfl, rfl⟩
  · intro r hr
    rw [hget, runOne, hr]
    exact ⟨rfl, rfl⟩

/-- Witness for C8 over two tenants where the second one's operation
throws. -/
theorem executeAcrossAllDatabases_per_tenant_witness :
    ∃ hx : 1 < (executeAcrossAllDatabases runW dbsW).length,
      ((executeAcrossAllDatabases runW dbsW).get ⟨1, hx⟩).error = some "boom" ∧
      ∃ hy : 0 < (executeAcrossAllDatabases runW dbsW).length,
        ((executeAcrossAllDatabases runW dbsW).get ⟨0, hy⟩).result = some 5 := by
  obtain ⟨hlen, heq, hidx⟩ := executeAcrossAllDatabases_per_tenant runW dbsW
  obtain ⟨hk2, hid, herr, hok⟩ := hidx 1 (by decide)
  obtain ⟨hk2b, hidb, herrb, hokb⟩ := hidx 0 (by decide)
  exact ⟨hk2, (herr "boom" rfl).2, hk2b, (hokb 5 rfl).1⟩

end Bee
